import Mathlib

/-!
# The results tree of the Cppcheck GUI

A shallow embedding of `gui/resultstree.cpp`: the store of analysis findings
(`ResultsTree::mModel`, a two-level tree of file items, error rows and note
rows), the insertion path (`addErrorItem`, `ensureFileItem`, `findFileItem`,
`addBacktraceFiles`), the clearing operations, the visibility pass
(`refreshTree`) with the operations that change its policies and hide keys
(`showResults`, `filterResults`, `hideResult`, `hideAllIdResult`,
`showHiddenResults`), and the export (`saveResults`, `saveErrors`).

Modelling conventions.

* A `QStandardItem` row is a record of its column texts (`RowCols`), its user
  data map (`data`), the hidden flag that `QTreeView::setRowHidden` keeps for
  it, and its child rows.  A `QStandardItem*` into `mModel` is a position in a
  list.  Icons, tool tips and alignment are not modelled.
* A key that is absent from a user data map reads as the default of its type
  (`false`, the empty string), as `QVariant` conversions do.
* `QString` is `String`; all string algorithms work on the list of characters.
* Line numbers are `unsigned int` in the source and `Nat` here; no arithmetic
  is done on them.
* Functions of the Qt library and the build configuration are the fields of
  `Platform`; every general theorem holds for every `Platform`.
* `ShowTypes` (`gui/showtypes.h`) is not among the sources; it is modelled as
  one enablement flag for each of the six categories that the main window can
  toggle, with the sentinel `ShowNone` never shown.
* A function that mutates the object returns the state afterwards, next to its
  return value when it has one.

The definitions come first, then the lemmas and theorems: the return value and
the effect of `addErrorItem`, the invariants of the store under insertion and
clearing, the visibility pass, manual and bulk hiding, the clearing operations
on a store with one file item, the export with its note rows, the display
paths, the frames of the clearing operations and of the policy changes, and the
rows of the category `ShowNone`.  A finding is exported as the list of findings
handed to `Report::writeError`; the header and footer of the report are not
modelled.  `qtRelativeFilePath` is a model of the Qt function for Unix paths,
used where a statement is evaluated on a concrete path.
-/

namespace Cppcheck

/-! ## Strings -/

/-- The test `QString::isEmpty`. -/
def isEmpty (s : String) : Bool :=
  s.data.isEmpty

/-- Whether the list `p` is an initial segment of the list `s`. -/
def startsWithList : List Char → List Char → Bool
  | [], _ => true
  | _ :: _, [] => false
  | a :: p, b :: s => a == b && startsWithList p s

/-- Whether the list `n` occurs as a contiguous block of `h`. -/
def containsList (n : List Char) : List Char → Bool
  | [] => n.isEmpty
  | c :: h => startsWithList n (c :: h) || containsList n h

/-- The test `QString::startsWith(p)`, case sensitive. -/
def startsWith (s p : String) : Bool :=
  startsWithList p.data s.data

/-- The call `QString::mid(pos)`: the characters from position `pos` on, empty
when `pos` is past the end. -/
def mid (s : String) (pos : Nat) : String :=
  ⟨s.data.drop pos⟩

/-- The digit character of `d`, for `d < 10`. -/
def digitChar (d : Nat) : Char :=
  Char.ofNat (48 + d)

/-- Decimal digits of `n`, least significant first; `fuel` bounds the number of
digits and `n + 1` is always enough. -/
def digitsRev : Nat → Nat → List Char
  | 0, _ => []
  | fuel + 1, n =>
    digitChar (n % 10) :: (if n / 10 = 0 then [] else digitsRev fuel (n / 10))

/-- Value of a list of decimal digits, least significant first. -/
def valRev : List Char → Nat
  | [] => 0
  | c :: cs => (c.toNat - 48) + 10 * valRev cs

/-- The call `QString::number(n)`: `n` in decimal. -/
def number (n : Nat) : String :=
  ⟨(digitsRev (n + 1) n).reverse⟩

/-! ## Platform -/

/-- Build configuration and Qt library functions used by the results tree. -/
structure Platform where
  /-- Whether `_WIN32` is defined for the build. -/
  win32 : Bool
  /-- The call `QDir(dir).relativeFilePath(path)`, as `relativeFilePath dir path`. -/
  relativeFilePath : String → String → String
  /-- Case folding of one character (`QChar::toCaseFolded`). -/
  caseFold : Char → Char

/-- The call `QDir::toNativeSeparators`: on Windows every slash becomes a
backslash, elsewhere the path is returned as it is. -/
def toNativeSeparators (P : Platform) (s : String) : String :=
  if P.win32 then ⟨s.data.map (fun c => if c = Char.ofNat 47 then Char.ofNat 92 else c)⟩
  else s

/-- The test `s.contains(f, Qt::CaseInsensitive)`. -/
def containsCI (P : Platform) (s f : String) : Bool :=
  containsList (f.data.map P.caseFold) (s.data.map P.caseFold)

/-- The test `QString::compare(a, b, Qt::CaseInsensitive) == 0`. -/
def equalsCI (P : Platform) (a b : String) : Bool :=
  a.data.map P.caseFold == b.data.map P.caseFold

/-- The function `tr`, with no translation catalogue installed: the source text. -/
def tr (s : String) : String := s

/-! ## Findings -/

/-- The enumeration `Severity::SeverityType`. -/
inductive Severity where
  | none | error | warning | style | performance | portability | information | debug
  deriving DecidableEq, Repr

/-- Modelled from the spec: the enumeration `ShowTypes::ShowType` of
`gui/showtypes.h`, which is not among the sources: one category for each
severity class the user can toggle, and the sentinel `ShowNone`. -/
inductive ShowType where
  | ShowStyle | ShowWarnings | ShowPerformance | ShowPortability | ShowInformation
  | ShowErrors | ShowNone
  deriving DecidableEq, Repr

/-- Modelled from the spec: the class `ShowTypes` of `gui/showtypes.h`, which is
not among the sources: one enablement flag for each category that can be
toggled. -/
structure ShowTypes where
  style : Bool
  warnings : Bool
  performance : Bool
  portability : Bool
  information : Bool
  errors : Bool
  deriving DecidableEq, Repr

/-- Modelled from the spec: `ShowTypes::SeverityToShowType`, which is not among
the sources: the category of a severity; a severity without a category of its
own falls under `ShowNone`. -/
def ShowTypes.SeverityToShowType : Severity → ShowType
  | .none => .ShowNone
  | .error => .ShowErrors
  | .style => .ShowStyle
  | .warning => .ShowWarnings
  | .performance => .ShowPerformance
  | .portability => .ShowPortability
  | .information => .ShowInformation
  | .debug => .ShowNone

/-- Modelled from the spec: `ShowTypes::isShown(ShowType)`, which is not among
the sources: the enablement flag of the category; the sentinel `ShowNone` is
never shown. -/
def ShowTypes.isShown (s : ShowTypes) : ShowType → Bool
  | .ShowStyle => s.style
  | .ShowWarnings => s.warnings
  | .ShowPerformance => s.performance
  | .ShowPortability => s.portability
  | .ShowInformation => s.information
  | .ShowErrors => s.errors
  | .ShowNone => false

/-- Modelled from the spec: `ShowTypes::isShown(Severity::SeverityType)`, which
is not among the sources: whether the category of the severity is enabled. -/
def ShowTypes.isShownSeverity (s : ShowTypes) (sev : Severity) : Bool :=
  s.isShown (ShowTypes.SeverityToShowType sev)

/-- The class `QErrorPathItem`: one step of a diagnostic path. -/
structure QErrorPathItem where
  file : String
  line : Nat
  info : String
  deriving DecidableEq, Repr

/-- The class `ErrorItem`: one finding. -/
structure ErrorItem where
  file0 : String
  errorId : String
  severity : Severity
  inconclusive : Bool
  summary : String
  message : String
  errorPath : List QErrorPathItem
  deriving DecidableEq, Repr

/-- The class `ErrorLine`: the fields from which a row is built. -/
structure ErrorLine where
  file : String
  line : Nat
  errorId : String
  inconclusive : Bool
  severity : Severity
  summary : String
  message : String
  deriving DecidableEq, Repr

/-! ## The item tree -/

/-- Column texts of one row below a file item, in the column order of
`ResultsTree::translate`: File, Severity, Line, Id, Inconclusive, Summary.  The
Inconclusive column holds a check box (`some checked`) or a plain empty item
(`none`). -/
structure RowCols where
  file : String
  severity : String
  line : String
  id : String
  inconclusive : Option Bool
  summary : String
  deriving DecidableEq, Repr

/-- User data of a note row (`child_data` in `addErrorItem`); `hide` is the key
that `hideResult` may add. -/
structure NoteData where
  hide : Bool
  severity : ShowType
  summary : String
  message : String
  file : String
  line : Nat
  id : String
  inconclusive : Bool
  deriving DecidableEq, Repr

/-- A note row: a child of an error row. -/
structure NoteItem where
  cols : RowCols
  data : NoteData
  hidden : Bool
  deriving DecidableEq, Repr

/-- User data of an error row (`data` in `addErrorItem`). -/
structure ErrorData where
  hide : Bool
  severity : ShowType
  summary : String
  message : String
  file : String
  line : Nat
  id : String
  inconclusive : Bool
  file0 : String
  deriving DecidableEq, Repr

/-- An error row (primary row): a child of a file item. -/
structure ErrorRowItem where
  cols : RowCols
  data : ErrorData
  hidden : Bool
  children : List NoteItem
  deriving DecidableEq, Repr

/-- User data of a file item (`data` in `ensureFileItem`); `hide` is the key that
`hideResult` may add. -/
structure FileData where
  file : String
  file0 : String
  hide : Bool
  deriving DecidableEq, Repr

/-- A file item: a top-level row of `mModel`. -/
structure FileItem where
  text : String
  data : FileData
  hidden : Bool
  children : List ErrorRowItem
  deriving DecidableEq, Repr

/-- The state of a `ResultsTree` object. -/
structure ResultsTree where
  mModel : List FileItem
  mShowSeverities : ShowTypes
  mFilter : String
  mVisibleErrors : Bool
  mCheckPath : String
  mShowFullPath : Bool
  mSaveFullPath : Bool
  mSaveAllErrors : Bool
  deriving DecidableEq, Repr

/-! ## Insertion -/

/-- The function `ResultsTree::stripPath`. -/
def ResultsTree.stripPath (P : Platform) (t : ResultsTree) (path : String) (saving : Bool) :
    String :=
  if (!saving && t.mShowFullPath) || (saving && t.mSaveFullPath) then path
  else P.relativeFilePath t.mCheckPath path

/-- The function `ResultsTree::severityToTranslatedString`. -/
def severityToTranslatedString : Severity → String
  | .style => tr "style"
  | .error => tr "error"
  | .warning => tr "warning"
  | .performance => tr "performance"
  | .portability => tr "portability"
  | .information => tr "information"
  | .debug => tr "debug"
  | .none => ""

/-- The comparison of a file item's text with a name in `findFileItem`: without
regard to case when `_WIN32` is defined, exact otherwise. -/
def sameFileName (P : Platform) (text name : String) : Bool :=
  if P.win32 then equalsCI P text name else text == name

/-- The loop of `findFileItem` over the top-level rows: the position of the
first file item whose text is `name`. -/
def findFileItemIn (P : Platform) (name : String) : List FileItem → Option Nat
  | [] => none
  | f :: fs =>
    if sameFileName P f.text name then some 0
    else (findFileItemIn P name fs).map (· + 1)

/-- The function `ResultsTree::findFileItem`. -/
def ResultsTree.findFileItem (P : Platform) (t : ResultsTree) (name : String) : Option Nat :=
  findFileItemIn P name t.mModel

/-- The function `ResultsTree::ensureFileItem`: the state afterwards and the
position of the file item it returns. -/
def ResultsTree.ensureFileItem (P : Platform) (t : ResultsTree) (fullpath file0 : String)
    (hide : Bool) : ResultsTree × Nat :=
  let name := t.stripPath P fullpath false
  match t.findFileItem P (toNativeSeparators P name) with
  | some i => (t, i)
  | none =>
    let item : FileItem :=
      { text := toNativeSeparators P name
        data := { file := fullpath, file0 := file0, hide := false }
        hidden := hide
        children := [] }
    ({ t with mModel := t.mModel ++ [item] }, t.mModel.length)

/-- The duplicate test of `addBacktraceFiles` for one existing row: same text in
the Line, the Severity and the Summary column. -/
def sameRow (child list : RowCols) : Bool :=
  child.line == list.line && child.severity == list.severity && child.summary == list.summary

/-- The column items that `addBacktraceFiles` creates for `item` (its local
`list`). -/
def rowColumns (P : Platform) (item : ErrorLine) (childOfMessage : Bool) : RowCols :=
  { file := toNativeSeparators P item.file
    severity := if childOfMessage then tr "note" else severityToTranslatedString item.severity
    line := number item.line
    id := if childOfMessage then "" else item.errorId
    inconclusive := if childOfMessage then none else some item.inconclusive
    summary := item.summary }

/-- The function `ResultsTree::addBacktraceFiles`, given the rows the parent
already has: the columns of the row that the source appends to the parent and
returns, or `none` where it finds a duplicate and returns `nullptr`.  The caller
appends the row and sets its hidden flag to `hide`, as the source does before
returning. -/
def addBacktraceFiles (P : Platform) (parent : List RowCols) (item : ErrorLine)
    (childOfMessage : Bool) : Option RowCols :=
  let list := rowColumns P item childOfMessage
  if parent.any (fun child => sameRow child list) then none else some list

/-- The user data that `addErrorItem` attaches to a note row (`child_data`). -/
def noteData (line : ErrorLine) (e : QErrorPathItem) : NoteData :=
  { hide := false
    severity := ShowTypes.SeverityToShowType line.severity
    summary := line.summary
    message := line.message
    file := e.file
    line := e.line
    id := line.errorId
    inconclusive := line.inconclusive }

/-- The loop of `addErrorItem` over the diagnostic path: every step is offered to
`addBacktraceFiles` below the new error row, whose note rows so far are
`notes`. -/
def addNoteRows (P : Platform) (hide : Bool) :
    ErrorLine → List QErrorPathItem → List NoteItem → List NoteItem
  | _, [], notes => notes
  | line, e :: es, notes =>
    let line1 : ErrorLine :=
      { line with file := e.file, line := e.line, message := e.info, summary := e.info }
    match addBacktraceFiles P (notes.map (·.cols)) line1 true with
    | none => addNoteRows P hide line1 es notes
    | some cols =>
      addNoteRows P hide line1 es
        (notes ++ [{ cols := cols, data := noteData line1 e, hidden := hide }])

/-- The note row that the loop of `addErrorItem` makes of the path step `e`. -/
def noteRow (P : Platform) (hide : Bool) (line : ErrorLine) (e : QErrorPathItem) : NoteItem :=
  { cols := rowColumns P
      { line with file := e.file, line := e.line, message := e.info, summary := e.info } true
    data := noteData
      { line with file := e.file, line := e.line, message := e.info, summary := e.info } e
    hidden := hide }

/-- The hide decision of `addErrorItem` for a finding with primary location
`back`: the severity is disabled, or a filter is set and occurs in none of
summary, message, primary file and id. -/
def ResultsTree.hideOnInsert (P : Platform) (t : ResultsTree) (item : ErrorItem)
    (back : QErrorPathItem) : Bool :=
  let hide := !t.mShowSeverities.isShownSeverity item.severity
  if !hide && !isEmpty t.mFilter then
    if !containsCI P item.summary t.mFilter &&
       !containsCI P item.message t.mFilter &&
       !containsCI P back.file t.mFilter &&
       !containsCI P item.errorId t.mFilter then true
    else hide
  else hide

/-- The statement `if (!hide) mVisibleErrors = true` of `addErrorItem`. -/
def ResultsTree.markVisible (t : ResultsTree) (hide : Bool) : ResultsTree :=
  if !hide then { t with mVisibleErrors := true } else t

/-- The `ErrorLine` that `addErrorItem` fills in for the primary location `back`
(its local `line`). -/
def ResultsTree.primaryLine (P : Platform) (t : ResultsTree) (item : ErrorItem)
    (back : QErrorPathItem) : ErrorLine :=
  let realfile := t.stripPath P back.file false
  let realfile := if isEmpty realfile then tr "Undefined file" else realfile
  { file := realfile
    line := back.line
    errorId := item.errorId
    inconclusive := item.inconclusive
    summary := item.summary
    message := item.message
    severity := item.severity }

/-- The user data that `addErrorItem` attaches to the new error row (`data`). -/
def ResultsTree.errorData (P : Platform) (t : ResultsTree) (item : ErrorItem)
    (back : QErrorPathItem) : ErrorData :=
  { hide := false
    severity := ShowTypes.SeverityToShowType item.severity
    summary := item.summary
    message := item.message
    file := back.file
    line := back.line
    id := item.errorId
    inconclusive := item.inconclusive
    file0 := t.stripPath P item.file0 true }

/-- The error row that `addErrorItem` appends in state `t` for a finding with
primary location `back` when `addBacktraceFiles` accepts it: columns, user data,
hidden flag and note rows (see `addErrorItem_found` and `addErrorItem_new`). -/
def ResultsTree.errorRow (P : Platform) (t : ResultsTree) (item : ErrorItem)
    (back : QErrorPathItem) : ErrorRowItem :=
  let hide := t.hideOnInsert P item back
  let line := t.primaryLine P item back
  { cols := rowColumns P line false
    data := t.errorData P item back
    hidden := hide
    children :=
      if item.errorPath.length > 1 then addNoteRows P hide line item.errorPath [] else [] }

/-- The function `ResultsTree::addErrorItem`: its return value and the state
afterwards. -/
def ResultsTree.addErrorItem (P : Platform) (t : ResultsTree) (item : ErrorItem) :
    Bool × ResultsTree :=
  match item.errorPath.getLast? with
  | none => (false, t)
  | some back =>
    let hide := t.hideOnInsert P item back
    let t1 := t.markVisible hide
    let line := t.primaryLine P item back
    let (t2, fileIdx) := t1.ensureFileItem P back.file item.file0 hide
    match t2.mModel.get? fileIdx with
    | none => (false, t2)
    | some fileItem =>
      match addBacktraceFiles P (fileItem.children.map (·.cols)) line false with
      | none => (false, t2)
      | some cols =>
        let stditem : ErrorRowItem :=
          { cols := cols
            data := t2.errorData P item back
            hidden := hide
            children :=
              if item.errorPath.length > 1 then addNoteRows P hide line item.errorPath []
              else [] }
        let fileItem1 : FileItem :=
          { fileItem with
            children := fileItem.children ++ [stditem]
            hidden := if !hide then false else fileItem.hidden }
        (true, { t2 with mModel := t2.mModel.set fileIdx fileItem1 })

/-! ## Clearing -/

/-- Removal of the first element that satisfies `p`: a loop that removes a row
and breaks. -/
def removeFirst {α : Type} (p : α → Bool) : List α → List α
  | [] => []
  | a :: as => if p a then as else a :: removeFirst p as

/-- The function `ResultsTree::clear()`. -/
def ResultsTree.clear (t : ResultsTree) : ResultsTree :=
  { t with mModel := [] }

/-- The function `ResultsTree::clear(const QString &filename)`. -/
def ResultsTree.clearFile (P : Platform) (t : ResultsTree) (filename : String) : ResultsTree :=
  let stripped := t.stripPath P filename false
  { t with
    mModel := removeFirst
      (fun item => stripped == item.data.file || filename == item.data.file0) t.mModel }

/-- The expression of `clearRecheckFile` that cuts the check path and one more
character off the front of a path that starts with the check path. -/
def ResultsTree.cutCheckPath (t : ResultsTree) (file : String) : String :=
  if !isEmpty t.mCheckPath && startsWith file t.mCheckPath then
    mid file (t.mCheckPath.length + 1)
  else file

/-- The function `ResultsTree::clearRecheckFile`. -/
def ResultsTree.clearRecheckFile (t : ResultsTree) (filename : String) : ResultsTree :=
  { t with
    mModel := removeFirst
      (fun item => t.cutCheckPath filename == t.cutCheckPath item.data.file) t.mModel }

/-! ## Visibility -/

/-- The hide decision of `refreshTree` for one error row. -/
def ResultsTree.hideOnRefresh (P : Platform) (t : ResultsTree) (data : ErrorData) : Bool :=
  let hide := data.hide || !t.mShowSeverities.isShown data.severity
  if !hide && !isEmpty t.mFilter then
    if !containsCI P data.summary t.mFilter &&
       !containsCI P data.message t.mFilter &&
       !containsCI P data.file t.mFilter &&
       !containsCI P data.id t.mFilter then true
    else hide
  else hide

/-- The body of the outer loop of `refreshTree` for one file item: every error
row gets its hide decision, and the file item is shown when one of them is shown
and its own `hide` attribute is not set. -/
def ResultsTree.refreshFile (P : Platform) (t : ResultsTree) (file : FileItem) : FileItem :=
  let rows := file.children.map (fun child => { child with hidden := t.hideOnRefresh P child.data })
  let shown := rows.any (fun child => !child.hidden)
  let shown := if file.data.hide then false else shown
  { file with children := rows, hidden := !shown }

/-- The function `ResultsTree::refreshTree`. -/
def ResultsTree.refreshTree (P : Platform) (t : ResultsTree) : ResultsTree :=
  { t with
    mVisibleErrors :=
      t.mModel.any (fun file => file.children.any (fun child => !t.hideOnRefresh P child.data))
    mModel := t.mModel.map (t.refreshFile P) }

/-- The function `ResultsTree::hasVisibleResults`. -/
def ResultsTree.hasVisibleResults (t : ResultsTree) : Bool :=
  t.mVisibleErrors

/-- The function `ResultsTree::hasResults`. -/
def ResultsTree.hasResults (t : ResultsTree) : Bool :=
  t.mModel.length > 0

/-! ## Manual hiding -/

/-- A row of the tree, as a `QModelIndex` of a selection designates it: a file
item, an error row of a file item, or a note row of an error row. -/
inductive ItemRef where
  | file (i : Nat)
  | error (i j : Nat)
  | note (i j k : Nat)
  deriving DecidableEq, Repr

/-- Replacement of the element at a position by its image under `f`; a position
past the end changes nothing. -/
def modifyAt {α : Type} (f : α → α) : Nat → List α → List α
  | _, [] => []
  | 0, a :: as => f a :: as
  | n + 1, a :: as => a :: modifyAt f n as

/-- The statements of `hideResult` that set the `hide` key of one selected item. -/
def ResultsTree.setHide (t : ResultsTree) : ItemRef → ResultsTree
  | .file i =>
    { t with
      mModel := modifyAt (fun f => { f with data := { f.data with hide := true } }) i t.mModel }
  | .error i j =>
    { t with
      mModel := modifyAt (fun f =>
        { f with
          children :=
            modifyAt (fun r => { r with data := { r.data with hide := true } }) j f.children })
        i t.mModel }
  | .note i j k =>
    { t with
      mModel := modifyAt (fun f =>
        { f with
          children := modifyAt (fun r =>
            { r with
              children :=
                modifyAt (fun n => { n with data := { n.data with hide := true } }) k r.children })
            j f.children })
        i t.mModel }

/-- The function `ResultsTree::hideResult`; `mSelectionModel` is `none` for a null
pointer and the list of selected rows otherwise. -/
def ResultsTree.hideResult (P : Platform) (t : ResultsTree)
    (mSelectionModel : Option (List ItemRef)) : ResultsTree :=
  match mSelectionModel with
  | none => t
  | some selectedRows =>
    selectedRows.foldl (fun t index => (t.setHide index).refreshTree P) t

/-! ## Policies and bulk hiding -/

/-- Modelled from the spec: `ShowTypes::show(ShowType, bool)` of
`gui/showtypes.h`, which is not among the sources: sets the enablement flag of
the category; the sentinel `ShowNone` has no flag. -/
def ShowTypes.showCategory (s : ShowTypes) : ShowType → Bool → ShowTypes
  | .ShowStyle, b => { s with style := b }
  | .ShowWarnings, b => { s with warnings := b }
  | .ShowPerformance, b => { s with performance := b }
  | .ShowPortability, b => { s with portability := b }
  | .ShowInformation, b => { s with information := b }
  | .ShowErrors, b => { s with errors := b }
  | .ShowNone, _ => s

/-- The function `ResultsTree::showResults`. -/
def ResultsTree.showResults (P : Platform) (t : ResultsTree) (type : ShowType) (shown : Bool) :
    ResultsTree :=
  if type != ShowType.ShowNone && t.mShowSeverities.isShown type != shown then
    ({ t with mShowSeverities := t.mShowSeverities.showCategory type shown }).refreshTree P
  else t

/-- The function `ResultsTree::filterResults`. -/
def ResultsTree.filterResults (P : Platform) (t : ResultsTree) (filter : String) : ResultsTree :=
  ({ t with mFilter := filter }).refreshTree P

/-- The loop of `showHiddenResults` for one file item: the `hide` key of the file
item and of each of its error rows is set to false. -/
def clearHide (file : FileItem) : FileItem :=
  { file with
    data := { file.data with hide := false }
    children := file.children.map (fun child => { child with data := { child.data with hide := false } }) }

/-- The function `ResultsTree::showHiddenResults`. -/
def ResultsTree.showHiddenResults (P : Platform) (t : ResultsTree) : ResultsTree :=
  ({ t with mModel := t.mModel.map clearHide }).refreshTree P

/-- The error id that `hideAllIdResult` reads from the context item: the `id` key
of an error row or of a note row; a file item has no parent and gives `none`, as
does a reference to no row. -/
def ResultsTree.contextId (t : ResultsTree) : ItemRef → Option String
  | .file _ => none
  | .error i j =>
    (t.mModel.get? i).bind (fun file => (file.children.get? j).map (fun r => r.data.id))
  | .note i j k =>
    (t.mModel.get? i).bind (fun file =>
      (file.children.get? j).bind (fun r => (r.children.get? k).map (fun n => n.data.id)))

/-- The loop of `hideAllIdResult` for one file item: the `hide` key of each error
row whose `id` key is `messageId` is set to true. -/
def hideId (messageId : String) (file : FileItem) : FileItem :=
  { file with
    children := file.children.map (fun child =>
      if child.data.id == messageId then { child with data := { child.data with hide := true } }
      else child) }

/-- The function `ResultsTree::hideAllIdResult`; `mContextItem` is `none` for a
null pointer. -/
def ResultsTree.hideAllIdResult (P : Platform) (t : ResultsTree)
    (mContextItem : Option ItemRef) : ResultsTree :=
  match mContextItem.bind t.contextId with
  | none => t
  | some messageId => ({ t with mModel := t.mModel.map (hideId messageId) }).refreshTree P

/-! ## Export -/

/-- Modelled from the spec: `ShowTypes::ShowTypeToSeverity` of `gui/showtypes.h`,
which is not among the sources: the severity of a category, `none` for the
sentinel. -/
def ShowTypes.ShowTypeToSeverity : ShowType → Severity
  | .ShowStyle => .style
  | .ShowErrors => .error
  | .ShowWarnings => .warning
  | .ShowPerformance => .performance
  | .ShowPortability => .portability
  | .ShowInformation => .information
  | .ShowNone => .none

/-- The finding that `saveErrors` rebuilds from one error row and hands to
`Report::writeError`: the primary fields from the user data, and as path the
note rows, or the primary location alone when the row has no note row. -/
def ResultsTree.savedError (P : Platform) (t : ResultsTree) (error : ErrorRowItem) : ErrorItem :=
  let data := error.data
  let first : List QErrorPathItem :=
    if error.children.length == 0 then
      [{ file := t.stripPath P data.file true, line := data.line, info := data.message }]
    else []
  { severity := ShowTypes.ShowTypeToSeverity data.severity
    summary := data.summary
    message := data.message
    errorId := data.id
    inconclusive := data.inconclusive
    file0 := data.file0
    errorPath := first ++ error.children.map (fun child_error =>
      { file := t.stripPath P child_error.data.file true
        line := child_error.data.line
        info := child_error.data.message }) }

/-- The function `ResultsTree::saveErrors`, as the loop over the error rows of
one file item: the findings handed to `Report::writeError`, in order. -/
def ResultsTree.saveErrors (P : Platform) (t : ResultsTree) : List ErrorRowItem → List ErrorItem
  | [] => []
  | error :: rest =>
    if error.hidden && !t.mSaveAllErrors then t.saveErrors P rest
    else t.savedError P error :: t.saveErrors P rest

/-- The loop of `saveResults` over the file items. -/
def ResultsTree.saveResultsFrom (P : Platform) (t : ResultsTree) : List FileItem → List ErrorItem
  | [] => []
  | item :: rest =>
    if !item.hidden then t.saveErrors P item.children ++ t.saveResultsFrom P rest
    else t.saveResultsFrom P rest

/-- The function `ResultsTree::saveResults`: the findings handed to
`Report::writeError` between `writeHeader` and `writeFooter`, in order. -/
def ResultsTree.saveResults (P : Platform) (t : ResultsTree) : List ErrorItem :=
  t.saveResultsFrom P t.mModel

/-! ## Sequences of store operations -/

/-- The operations that fill and empty the store. -/
inductive StoreOp where
  | insert (finding : ErrorItem)
  | clearAll
  | clearFile (filename : String)
  | clearFileForRecheck (filename : String)
  deriving DecidableEq, Repr

/-- The state after one store operation. -/
def ResultsTree.applyOp (P : Platform) (t : ResultsTree) : StoreOp → ResultsTree
  | .insert finding => (t.addErrorItem P finding).2
  | .clearAll => t.clear
  | .clearFile filename => t.clearFile P filename
  | .clearFileForRecheck filename => t.clearRecheckFile filename

/-- The state after a sequence of store operations, first operation first. -/
def ResultsTree.run (P : Platform) (t : ResultsTree) (ops : List StoreOp) : ResultsTree :=
  ops.foldl (ResultsTree.applyOp P) t

/-- The operations that insert findings and change what is shown. -/
inductive ViewOp where
  | insert (finding : ErrorItem)
  | showResults (type : ShowType) (shown : Bool)
  | filterResults (filter : String)
  | hideResult (mSelectionModel : Option (List ItemRef))
  | hideAllIdResult (mContextItem : Option ItemRef)
  | showHiddenResults
  deriving DecidableEq, Repr

/-- The state after one operation of `ViewOp`. -/
def ResultsTree.applyView (P : Platform) (t : ResultsTree) : ViewOp → ResultsTree
  | .insert finding => (t.addErrorItem P finding).2
  | .showResults type shown => t.showResults P type shown
  | .filterResults filter => t.filterResults P filter
  | .hideResult mSelectionModel => t.hideResult P mSelectionModel
  | .hideAllIdResult mContextItem => t.hideAllIdResult P mContextItem
  | .showHiddenResults => t.showHiddenResults P

/-- The state after a sequence of operations of `ViewOp`, first operation first. -/
def ResultsTree.runView (P : Platform) (t : ResultsTree) (ops : List ViewOp) : ResultsTree :=
  ops.foldl (ResultsTree.applyView P) t

/-- Whether an operation inserts no finding, or one whose severity has the
category `ShowNone`. -/
def ViewOp.insertsOnlyNone : ViewOp → Bool
  | .insert finding => ShowTypes.SeverityToShowType finding.severity == ShowType.ShowNone
  | _ => true

/-! ## Properties of states -/

/-- The error row `r` shows the line `line`, the severity `sev` and the summary
`summary` in its Line, Severity and Summary columns. -/
def ErrorRowItem.carries (r : ErrorRowItem) (line : Nat) (sev : Severity) (summary : String) :
    Prop :=
  r.cols.line = number line ∧ r.cols.severity = severityToTranslatedString sev ∧
    r.cols.summary = summary

instance (r : ErrorRowItem) (line : Nat) (sev : Severity) (summary : String) :
    Decidable (r.carries line sev summary) := by
  unfold ErrorRowItem.carries; infer_instance

/-- No file item has two error rows that `addBacktraceFiles` takes for
duplicates of each other. -/
def ResultsTree.NoDuplicateRows (t : ResultsTree) : Prop :=
  ∀ file ∈ t.mModel, file.children.Pairwise (fun a b => sameRow a.cols b.cols = false)

/-- The visibility formula of one error row under the policies of `t`: the
category of its severity is enabled, the filter is empty or occurs without
regard to case in summary, message, file or id, and the row is not manually
hidden. -/
def ResultsTree.rowPasses (P : Platform) (t : ResultsTree) (data : ErrorData) : Prop :=
  t.mShowSeverities.isShown data.severity = true ∧
  (isEmpty t.mFilter = true ∨ containsCI P data.summary t.mFilter = true ∨
    containsCI P data.message t.mFilter = true ∨ containsCI P data.file t.mFilter = true ∨
    containsCI P data.id t.mFilter = true) ∧
  data.hide = false

/-- The settings and policies of two states agree. -/
def ResultsTree.sameSettings (t u : ResultsTree) : Prop :=
  u.mCheckPath = t.mCheckPath ∧ u.mShowFullPath = t.mShowFullPath ∧
  u.mSaveFullPath = t.mSaveFullPath ∧ u.mSaveAllErrors = t.mSaveAllErrors ∧
  u.mShowSeverities = t.mShowSeverities ∧ u.mFilter = t.mFilter

instance (t u : ResultsTree) : Decidable (t.sameSettings u) := by
  unfold ResultsTree.sameSettings; infer_instance

instance (t : ResultsTree) : Decidable t.NoDuplicateRows := by
  unfold ResultsTree.NoDuplicateRows; infer_instance

/-- Invariant of the store under insertion and clearing: no file item has
duplicate rows; every error row shows its own line and summary and the name of
a severity; the texts of the file items are pairwise different for
`findFileItem`; the text of a file item is the display name of its file; and
every error row lies below the file item that `findFileItem` selects for the
display name of the row's file. -/
def ResultsTree.StoreInv (P : Platform) (t : ResultsTree) : Prop :=
  t.NoDuplicateRows ∧
  (∀ file ∈ t.mModel, ∀ r ∈ file.children,
    ∃ sev, r.carries r.data.line sev r.data.summary) ∧
  (t.mModel.map (·.text)).Pairwise (fun a b => sameFileName P a b = false) ∧
  (∀ file ∈ t.mModel,
    file.text = toNativeSeparators P (t.stripPath P file.data.file false)) ∧
  (∀ file ∈ t.mModel, ∀ r ∈ file.children,
    sameFileName P file.text (toNativeSeparators P (t.stripPath P r.data.file false)) = true)

instance (P : Platform) (t : ResultsTree) (data : ErrorData) : Decidable (t.rowPasses P data) := by
  unfold ResultsTree.rowPasses; infer_instance

/-- The part of the visibility formula that does not depend on manual hiding:
the category of the severity is enabled and the filter is empty or occurs without
regard to case in summary, message, file or id. -/
def ResultsTree.policyPasses (P : Platform) (t : ResultsTree) (data : ErrorData) : Prop :=
  t.mShowSeverities.isShown data.severity = true ∧
  (isEmpty t.mFilter = true ∨ containsCI P data.summary t.mFilter = true ∨
    containsCI P data.message t.mFilter = true ∨ containsCI P data.file t.mFilter = true ∨
    containsCI P data.id t.mFilter = true)

instance (P : Platform) (t : ResultsTree) (data : ErrorData) :
    Decidable (t.policyPasses P data) := by
  unfold ResultsTree.policyPasses; infer_instance

/-- The severity categories stored with the error rows, file item by file item. -/
def ResultsTree.severities (t : ResultsTree) : List (List ShowType) :=
  t.mModel.map (fun file => file.children.map (fun r => r.data.severity))

/-- A file item without what the view keeps about it: the hidden flag of the
file item and of each of its error rows is set to false, everything else is
kept. -/
def eraseHidden (file : FileItem) : FileItem :=
  { file with
    hidden := false
    children := file.children.map (fun r => { r with hidden := false }) }

/-! ## A model of `QDir::relativeFilePath` -/

/-- The parts of a path between slashes, an empty part where two slashes meet or
the path starts or ends with one. -/
def splitParts : List Char → List (List Char)
  | [] => [[]]
  | c :: cs =>
    if c = Char.ofNat 47 then [] :: splitParts cs
    else
      match splitParts cs with
      | [] => [[c]]
      | part :: parts => (c :: part) :: parts

/-- The non-empty parts of a path (`split` with `SkipEmptyParts`). -/
def pathParts (s : String) : List (List Char) :=
  (splitParts s.data).filter (fun part => !part.isEmpty)

/-- The parts of a cleaned path: a part `.` is dropped and a part `..` takes the
part before it away; `done` holds the parts kept so far, last part first.  At
the root of an absolute path `..` is dropped, in front of a relative path it is
kept. -/
def cleanParts (absolute : Bool) : List (List Char) → List (List Char) → List (List Char)
  | [], done => done.reverse
  | part :: parts, done =>
    if part = ".".data then cleanParts absolute parts done
    else if part = "..".data then
      match done with
      | [] => if absolute then cleanParts absolute parts [] else cleanParts absolute parts [part]
      | last :: before =>
        if last = "..".data then cleanParts absolute parts (part :: done)
        else cleanParts absolute parts before
    else cleanParts absolute parts (part :: done)

/-- The parts joined by slashes. -/
def joinParts : List (List Char) → List Char
  | [] => []
  | [part] => part
  | part :: parts => part ++ Char.ofNat 47 :: joinParts parts

/-- Whether a path starts with a slash. -/
def isAbsolutePath (s : String) : Bool :=
  startsWithList [Char.ofNat 47] s.data

/-- The call `QDir::cleanPath` on a Unix path: no `.` part, no empty part, `..`
resolved where it can be. -/
def cleanPath (s : String) : String :=
  let parts := cleanParts (isAbsolutePath s) (pathParts s) []
  if isAbsolutePath s then ⟨Char.ofNat 47 :: joinParts parts⟩ else ⟨joinParts parts⟩

/-- The parts of `file` relative to `dir`, both given by their parts: the common
leading parts are dropped, every part left of `dir` becomes `..`. -/
def relativeParts : List (List Char) → List (List Char) → List (List Char)
  | d :: dir, f :: file =>
    if d = f then relativeParts dir file
    else ((d :: dir).map (fun _ => "..".data)) ++ f :: file
  | dir, file => (dir.map (fun _ => "..".data)) ++ file

/-- The call `QDir(dir).relativeFilePath(path)` for Unix paths in a process with
current directory `cwd`, after the Qt documentation: an empty or relative `dir`
is taken below `cwd`; a relative `path` is returned cleaned; an absolute `path`
is expressed relative to the directory, as in
`QDir("/home/bob").relativeFilePath("/home/mary/file.txt") = "../mary/file.txt"`. -/
def qtRelativeFilePath (cwd dir path : String) : String :=
  let absDir : String := if isAbsolutePath dir then dir else cwd ++ "/" ++ dir
  let file := cleanPath path
  if !isAbsolutePath file then file
  else ⟨joinParts (relativeParts (pathParts (cleanPath absDir)) (pathParts file))⟩

/-- A non-Windows platform whose `relativeFilePath` is `qtRelativeFilePath` with
current directory `cwd`. -/
def qtPlatform (cwd : String) : Platform :=
  { win32 := false
    relativeFilePath := qtRelativeFilePath cwd
    caseFold := Char.toLower }

/-! ## Sample data -/

/-- A platform for evaluating the model: a non-Windows build, ASCII case
folding, and a `relativeFilePath` that cuts `dir/` off the front of a path that
lies below `dir` and returns any other path as it is. -/
def samplePlatform : Platform :=
  { win32 := false
    relativeFilePath := fun dir path =>
      if !isEmpty dir && startsWithList (dir.data ++ [Char.ofNat 47]) path.data then
        mid path (dir.length + 1)
      else path
    caseFold := Char.toLower }

/-- A state with an empty store, check directory `/proj`, every category enabled
and no filter. -/
def sampleTree : ResultsTree :=
  { mModel := []
    mShowSeverities :=
      { style := true, warnings := true, performance := true, portability := true,
        information := true, errors := true }
    mFilter := ""
    mVisibleErrors := false
    mCheckPath := "/proj"
    mShowFullPath := false
    mSaveFullPath := false
    mSaveAllErrors := false }

/-- A finding of severity error with a two-step path that ends in `/proj/a.c`. -/
def sampleFinding : ErrorItem :=
  { file0 := "/proj/a.c"
    errorId := "nullPointer"
    severity := .error
    inconclusive := false
    summary := "Null deref"
    message := "Null pointer dereference"
    errorPath := [⟨"/proj/a.h", 3, "assigned"⟩, ⟨"/proj/a.c", 12, "deref"⟩] }

/-- The sample store after the sample finding was inserted and its error row was
hidden by `hideResult`. -/
def hiddenRowTree : ResultsTree :=
  (sampleTree.addErrorItem samplePlatform sampleFinding).2.hideResult samplePlatform
    (some [.error 0 0])

/-- The sample store after the sample finding was inserted and its file item was
hidden by `hideResult`. -/
def hiddenFileTree : ResultsTree :=
  (sampleTree.addErrorItem samplePlatform sampleFinding).2.hideResult samplePlatform
    (some [.file 0])

/-- The sample store after the sample finding was inserted. -/
def insertedTree : ResultsTree :=
  (sampleTree.addErrorItem samplePlatform sampleFinding).2

/-- The error row of the sample finding in `insertedTree`. -/
def sampleRow : ErrorRowItem :=
  sampleTree.errorRow samplePlatform sampleFinding ⟨"/proj/a.c", 12, "deref"⟩

/-- The file item of the sample finding in `insertedTree`. -/
def sampleFile : FileItem :=
  { text := "a.c"
    data := { file := "/proj/a.c", file0 := "/proj/a.c", hide := false }
    hidden := false
    children := [sampleRow] }

/-- A sequence of store operations that leaves the sample finding in the store. -/
def sampleOps : List StoreOp :=
  [.insert sampleFinding, .insert sampleFinding, .clearFileForRecheck "/proj/b.c",
   .clearFile "/proj/a.c", .insert sampleFinding, .clearAll, .insert sampleFinding]

/-- A second finding of severity error in `/proj/a.c`, on another line. -/
def sampleFinding2 : ErrorItem :=
  { file0 := "/proj/a.c"
    errorId := "uninitvar"
    severity := .error
    inconclusive := false
    summary := "Uninitialized variable"
    message := "Uninitialized variable: x"
    errorPath := [⟨"/proj/a.c", 20, ""⟩] }

/-- A finding in the header `/usr/include/foo.h` with origin file `/proj/a.c`. -/
def headerFindingA : ErrorItem :=
  { file0 := "/proj/a.c"
    errorId := "nullPointer"
    severity := .error
    inconclusive := false
    summary := "Null deref"
    message := "Null pointer dereference"
    errorPath := [⟨"/usr/include/foo.h", 7, ""⟩] }

/-- A finding in the header `/usr/include/foo.h` with origin file `/proj/b.c`. -/
def headerFindingB : ErrorItem :=
  { file0 := "/proj/b.c"
    errorId := "nullPointer"
    severity := .error
    inconclusive := false
    summary := "Null deref"
    message := "Null pointer dereference"
    errorPath := [⟨"/usr/include/foo.h", 9, ""⟩] }

/-- A finding whose two path steps have the same line and the same empty note
text, in different files. -/
def twoStepFinding : ErrorItem :=
  { file0 := "/proj/a.c"
    errorId := "nullPointer"
    severity := .error
    inconclusive := false
    summary := "Null deref"
    message := "Null pointer dereference"
    errorPath := [⟨"/proj/a.h", 5, ""⟩, ⟨"/proj/a.c", 5, ""⟩] }

/-- The empty sample store with the category of errors disabled and the
save-all mode on. -/
def saveAllTree : ResultsTree :=
  { sampleTree with
    mShowSeverities :=
      { style := true, warnings := true, performance := true, portability := true,
        information := true, errors := false }
    mSaveAllErrors := true }

/-- A finding of severity none in `/proj/a.c`. -/
def noneFinding : ErrorItem :=
  { file0 := "/proj/a.c"
    errorId := "marker"
    severity := .none
    inconclusive := false
    summary := "Marker"
    message := "Marker"
    errorPath := [⟨"/proj/a.c", 1, ""⟩] }

/-- A finding in `/proj/cts/a.c`, a file below the check directory `/proj`. -/
def nestedFinding : ErrorItem :=
  { file0 := "/proj/cts/a.c"
    errorId := "nullPointer"
    severity := .error
    inconclusive := false
    summary := "Null deref"
    message := "Null pointer dereference"
    errorPath := [⟨"/proj/cts/a.c", 1, ""⟩] }

/-- The sample store without a check directory. -/
def noRootTree : ResultsTree :=
  { sampleTree with mCheckPath := "" }

/-- A sequence of operations that inserts the sample finding and a finding of
severity none and changes the policies. -/
def sampleViewOps : List ViewOp :=
  [.insert noneFinding, .insert sampleFinding, .filterResults "marker",
   .showResults .ShowErrors false, .hideResult (some [.error 0 1]), .showHiddenResults,
   .filterResults "", .showResults .ShowErrors true]

/-- A sequence of operations that inserts only a finding of severity none. -/
def noneViewOps : List ViewOp :=
  [.insert noneFinding, .filterResults "marker", .showResults .ShowErrors false,
   .hideResult (some [.file 0]), .showHiddenResults, .filterResults ""]

/-! ## Lemmas on the helper functions -/

theorem digitChar_toNat (d : Nat) (h : d < 10) : (digitChar d).toNat = 48 + d := by
  interval_cases d <;> rfl

theorem valRev_digitsRev : ∀ (fuel n : Nat), n < fuel → valRev (digitsRev fuel n) = n := by
  intro fuel
  induction fuel with
  | zero => intro n h; omega
  | succ fuel ih =>
    intro n h
    simp only [digitsRev]
    by_cases h0 : n / 10 = 0
    · simp only [h0, if_true, valRev, digitChar_toNat _ (Nat.mod_lt n (by decide))]
      omega
    · simp only [h0, if_false, valRev, digitChar_toNat _ (Nat.mod_lt n (by decide))]
      rw [ih (n / 10) (by omega)]
      omega

theorem number_injective {a b : Nat} (h : number a = number b) : a = b := by
  unfold number at h
  have h1 : digitsRev (a + 1) a = digitsRev (b + 1) b := by
    have := congrArg String.data h
    exact List.reverse_injective this
  have h2 := congrArg valRev h1
  rwa [valRev_digitsRev _ _ (Nat.lt_succ_self a), valRev_digitsRev _ _ (Nat.lt_succ_self b)] at h2

theorem severityToTranslatedString_injective {a b : Severity}
    (h : severityToTranslatedString a = severityToTranslatedString b) : a = b := by
  cases a <;> cases b <;> first | rfl | (revert h; decide)

/-- The columns of an error row determine the line, severity and summary it
shows. -/
theorem carries_unique {r : ErrorRowItem} {line line1 : Nat} {sev sev1 : Severity}
    {summary summary1 : String} (h : r.carries line sev summary)
    (h1 : r.carries line1 sev1 summary1) : line1 = line ∧ sev1 = sev ∧ summary1 = summary :=
  ⟨number_injective (h1.1.symm.trans h.1),
    severityToTranslatedString_injective (h1.2.1.symm.trans h.2.1), h1.2.2.symm.trans h.2.2⟩

theorem any_map_eq {α β : Type} (f : α → β) (p : β → Bool) (l : List α) :
    (l.map f).any p = l.any (fun a => p (f a)) := by
  induction l with
  | nil => rfl
  | cons a l ih => simp [List.any_cons, ih]

theorem findFileItemIn_some (P : Platform) (name : String) :
    ∀ (l : List FileItem) (i : Nat), findFileItemIn P name l = some i →
      ∃ f, l.get? i = some f ∧ sameFileName P f.text name = true := by
  intro l
  induction l with
  | nil => intro i h; simp [findFileItemIn] at h
  | cons f fs ih =>
    intro i h
    simp only [findFileItemIn] at h
    split at h
    · next hs =>
      simp only [Option.some.injEq] at h
      subst h
      exact ⟨f, rfl, hs⟩
    · cases hfs : findFileItemIn P name fs with
      | none => simp [hfs] at h
      | some j =>
        simp only [hfs, Option.map_some', Option.some.injEq] at h
        subst h
        obtain ⟨g, hg, hsg⟩ := ih j hfs
        exact ⟨g, by simpa using hg, hsg⟩

theorem findFileItemIn_none (P : Platform) (name : String) :
    ∀ (l : List FileItem), findFileItemIn P name l = none →
      ∀ f ∈ l, sameFileName P f.text name = false := by
  intro l
  induction l with
  | nil => intro _ f hf; simp at hf
  | cons g gs ih =>
    intro h f hf
    simp only [findFileItemIn] at h
    split at h
    · simp at h
    · next hs =>
      have hgs : findFileItemIn P name gs = none := by
        cases hfs : findFileItemIn P name gs with
        | none => rfl
        | some j => simp [hfs] at h
      rcases List.mem_cons.1 hf with rfl | hmem
      · simpa using hs
      · exact ih hgs f hmem

@[simp] theorem markVisible_mModel (t : ResultsTree) (hide : Bool) :
    (t.markVisible hide).mModel = t.mModel := by
  unfold ResultsTree.markVisible; split <;> rfl

@[simp] theorem markVisible_mCheckPath (t : ResultsTree) (hide : Bool) :
    (t.markVisible hide).mCheckPath = t.mCheckPath := by
  unfold ResultsTree.markVisible; split <;> rfl

@[simp] theorem markVisible_mShowFullPath (t : ResultsTree) (hide : Bool) :
    (t.markVisible hide).mShowFullPath = t.mShowFullPath := by
  unfold ResultsTree.markVisible; split <;> rfl

@[simp] theorem markVisible_mSaveFullPath (t : ResultsTree) (hide : Bool) :
    (t.markVisible hide).mSaveFullPath = t.mSaveFullPath := by
  unfold ResultsTree.markVisible; split <;> rfl

@[simp] theorem markVisible_mShowSeverities (t : ResultsTree) (hide : Bool) :
    (t.markVisible hide).mShowSeverities = t.mShowSeverities := by
  unfold ResultsTree.markVisible; split <;> rfl

@[simp] theorem markVisible_mFilter (t : ResultsTree) (hide : Bool) :
    (t.markVisible hide).mFilter = t.mFilter := by
  unfold ResultsTree.markVisible; split <;> rfl

theorem stripPath_congr (P : Platform) (t u : ResultsTree)
    (h1 : u.mCheckPath = t.mCheckPath) (h2 : u.mShowFullPath = t.mShowFullPath)
    (h3 : u.mSaveFullPath = t.mSaveFullPath) (path : String) (saving : Bool) :
    u.stripPath P path saving = t.stripPath P path saving := by
  simp [ResultsTree.stripPath, h1, h2, h3]

@[simp] theorem markVisible_stripPath (P : Platform) (t : ResultsTree) (hide : Bool)
    (path : String) (saving : Bool) :
    (t.markVisible hide).stripPath P path saving = t.stripPath P path saving :=
  stripPath_congr P t _ (by simp) (by simp) (by simp) path saving

theorem errorData_congr (P : Platform) (t u : ResultsTree) (item : ErrorItem)
    (back : QErrorPathItem) (h1 : u.mCheckPath = t.mCheckPath)
    (h2 : u.mSaveFullPath = t.mSaveFullPath) :
    u.errorData P item back = t.errorData P item back := by
  simp [ResultsTree.errorData, ResultsTree.stripPath, h1, h2]

/-- What `addErrorItem` does when no file item has the display name of the
primary location: a file item with the one new error row is appended. -/
theorem addErrorItem_new (P : Platform) (t : ResultsTree) (item : ErrorItem)
    (back : QErrorPathItem) (hb : item.errorPath.getLast? = some back)
    (hf : t.findFileItem P (toNativeSeparators P (t.stripPath P back.file false)) = none) :
    t.addErrorItem P item =
      (true, { t.markVisible (t.hideOnInsert P item back) with
               mModel := t.mModel ++
                 [{ text := toNativeSeparators P (t.stripPath P back.file false)
                    data := { file := back.file, file0 := item.file0, hide := false }
                    hidden := t.hideOnInsert P item back
                    children := [t.errorRow P item back] }] }) := by
  simp only [ResultsTree.findFileItem] at hf
  simp only [ResultsTree.addErrorItem, hb, ResultsTree.ensureFileItem, ResultsTree.findFileItem,
    markVisible_mModel, markVisible_stripPath, hf]
  have hd : (t.mModel ++
      [({ text := toNativeSeparators P (t.stripPath P back.file false)
          data := { file := back.file, file0 := item.file0, hide := false }
          hidden := t.hideOnInsert P item back
          children := [] } : FileItem)]).get? t.mModel.length = some
        { text := toNativeSeparators P (t.stripPath P back.file false)
          data := { file := back.file, file0 := item.file0, hide := false }
          hidden := t.hideOnInsert P item back
          children := [] } := by simp
  simp only [hd, addBacktraceFiles, List.map_nil, List.any_nil, Bool.false_eq_true, if_false,
    ResultsTree.errorRow]
  rw [errorData_congr P t _ item back (by simp) (by simp)]
  congr 2
  cases t.hideOnInsert P item back <;> simp

/-- What `addErrorItem` does when the file item `file` at position `i` has the
display name of the primary location: a duplicate is rejected, any other
finding becomes a new last error row of `file`. -/
theorem addErrorItem_found (P : Platform) (t : ResultsTree) (item : ErrorItem)
    (back : QErrorPathItem) (hb : item.errorPath.getLast? = some back) (i : Nat)
    (file : FileItem)
    (hf : t.findFileItem P (toNativeSeparators P (t.stripPath P back.file false)) = some i)
    (hg : t.mModel.get? i = some file) :
    t.addErrorItem P item =
      if file.children.any (fun r => sameRow r.cols (t.errorRow P item back).cols) then
        (false, t.markVisible (t.hideOnInsert P item back))
      else
        (true, { t.markVisible (t.hideOnInsert P item back) with
                 mModel := t.mModel.set i
                   { file with
                     children := file.children ++ [t.errorRow P item back]
                     hidden := if !(t.hideOnInsert P item back) then false else file.hidden } }) := by
  simp only [ResultsTree.findFileItem] at hf
  simp only [ResultsTree.addErrorItem, hb, ResultsTree.ensureFileItem, ResultsTree.findFileItem,
    markVisible_mModel, markVisible_stripPath, hf, hg, addBacktraceFiles, any_map_eq,
    ResultsTree.errorRow]
  rw [errorData_congr P t _ item back (by simp) (by simp)]
  by_cases hd : (file.children.any
      (fun r => sameRow r.cols (rowColumns P (t.primaryLine P item back) false))) = true
  · simp only [hd, if_true]
  · simp only [hd, if_false]
    rfl

theorem sameRow_errorRow_iff (P : Platform) (t : ResultsTree) (item : ErrorItem)
    (back : QErrorPathItem) (r : ErrorRowItem) :
    sameRow r.cols (t.errorRow P item back).cols = true ↔
      r.carries back.line item.severity item.summary := by
  simp [sameRow, ResultsTree.errorRow, rowColumns, ResultsTree.primaryLine,
    ErrorRowItem.carries, and_assoc]

theorem errorRow_carries (P : Platform) (t : ResultsTree) (item : ErrorItem)
    (back : QErrorPathItem) :
    (t.errorRow P item back).carries back.line item.severity item.summary := by
  simp [ResultsTree.errorRow, rowColumns, ResultsTree.primaryLine, ErrorRowItem.carries]

theorem sameSettings_stripPath (P : Platform) {t u : ResultsTree} (h : t.sameSettings u)
    (path : String) (saving : Bool) : u.stripPath P path saving = t.stripPath P path saving :=
  stripPath_congr P t u h.1 h.2.1 h.2.2.1 path saving

theorem sameSettings_hideOnInsert (P : Platform) {t u : ResultsTree} (h : t.sameSettings u)
    (item : ErrorItem) (back : QErrorPathItem) :
    u.hideOnInsert P item back = t.hideOnInsert P item back := by
  simp [ResultsTree.hideOnInsert, h.2.2.2.2.1, h.2.2.2.2.2]

theorem sameSettings_errorRow (P : Platform) {t u : ResultsTree} (h : t.sameSettings u)
    (item : ErrorItem) (back : QErrorPathItem) :
    u.errorRow P item back = t.errorRow P item back := by
  simp [ResultsTree.errorRow, sameSettings_hideOnInsert P h, ResultsTree.primaryLine,
    sameSettings_stripPath P h, ResultsTree.errorData]

theorem sameSettings_markVisible (t : ResultsTree) (hide : Bool) :
    t.sameSettings (t.markVisible hide) := by
  unfold ResultsTree.markVisible ResultsTree.sameSettings; split <;> simp

theorem markVisible_idem (t : ResultsTree) (hide : Bool) :
    (t.markVisible hide).markVisible hide = t.markVisible hide := by
  unfold ResultsTree.markVisible; cases hide <;> simp

theorem sameFileName_refl (P : Platform) (a : String) : sameFileName P a a = true := by
  unfold sameFileName equalsCI; split <;> simp

theorem findFileItemIn_congr (P : Platform) (name : String) :
    ∀ (l1 l2 : List FileItem), l1.map (·.text) = l2.map (·.text) →
      findFileItemIn P name l1 = findFileItemIn P name l2 := by
  intro l1
  induction l1 with
  | nil => intro l2 h; cases l2 <;> simp_all
  | cons a l1 ih =>
    intro l2 h
    cases l2 with
    | nil => simp at h
    | cons b l2 =>
      simp only [List.map_cons, List.cons.injEq] at h
      simp only [findFileItemIn, h.1, ih l2 h.2]

theorem map_text_set (l : List FileItem) (i : Nat) (file file1 : FileItem)
    (hg : l.get? i = some file) (ht : file1.text = file.text) :
    (l.set i file1).map (·.text) = l.map (·.text) := by
  induction l generalizing i with
  | nil => simp
  | cons a l ih =>
    cases i with
    | zero => simp at hg; subst hg; simp [ht]
    | succ i =>
      simp only [List.get?_cons_succ] at hg
      simp only [List.set_cons_succ, List.map_cons, ih i hg]

theorem findFileItemIn_append_new (P : Platform) (name : String) (l : List FileItem)
    (f : FileItem) (hn : findFileItemIn P name l = none) (hf : f.text = name) :
    findFileItemIn P name (l ++ [f]) = some l.length := by
  induction l with
  | nil => simp [findFileItemIn, hf, sameFileName_refl]
  | cons a l ih =>
    simp only [findFileItemIn] at hn
    split at hn
    · simp at hn
    · next hs =>
      have hl : findFileItemIn P name l = none := by
        cases hfs : findFileItemIn P name l with
        | none => rfl
        | some j => simp [hfs] at hn
      simp [findFileItemIn, hs, ih hl]

theorem countP_eq_one_of_pairwise (line : Nat) (sev : Severity) (summary : String) :
    ∀ (l : List ErrorRowItem), l.Pairwise (fun a b => sameRow a.cols b.cols = false) →
      (∃ r ∈ l, r.carries line sev summary) →
      l.countP (fun r => decide (r.carries line sev summary)) = 1 := by
  intro l
  induction l with
  | nil => intro _ h; simp at h
  | cons a l ih =>
    intro hp hex
    rw [List.pairwise_cons] at hp
    by_cases ha : a.carries line sev summary
    · have hz : l.countP (fun r => decide (r.carries line sev summary)) = 0 := by
        rw [List.countP_eq_zero]
        intro b hb hcb
        have hcb : b.carries line sev summary := by simpa using hcb
        have := hp.1 b hb
        simp [sameRow, ha.1, ha.2.1, ha.2.2, hcb.1, hcb.2.1, hcb.2.2] at this
      simp [List.countP_cons, ha, hz]
    · obtain ⟨r, hr, hc⟩ := hex
      rcases List.mem_cons.1 hr with rfl | hr
      · exact absurd hc ha
      · simp [List.countP_cons, ha, ih hp.2 ⟨r, hr, hc⟩]

/-! ## Return value of `addErrorItem` -/

/-- C1: `addErrorItem` returns false exactly when the path of the finding is
empty, or the file item that `findFileItem` selects for the display name of the
primary location already has an error row that shows the line, the severity and
the summary of the finding; in every other case it returns true. -/
theorem addErrorItem_false_iff (P : Platform) (t : ResultsTree) (item : ErrorItem) :
    ((t.addErrorItem P item).1 = false ↔
      (item.errorPath = [] ∨
        ∃ back i file row, item.errorPath.getLast? = some back ∧
          t.findFileItem P (toNativeSeparators P (t.stripPath P back.file false)) = some i ∧
          t.mModel.get? i = some file ∧ row ∈ file.children ∧
          row.carries back.line item.severity item.summary)) := by
  cases hb : item.errorPath.getLast? with
  | none =>
    have he : item.errorPath = [] := List.getLast?_eq_none_iff.1 hb
    simp [ResultsTree.addErrorItem, hb, he]
  | some back =>
    have hne : item.errorPath ≠ [] := by
      intro he; simp [he] at hb
    cases hf : t.findFileItem P (toNativeSeparators P (t.stripPath P back.file false)) with
    | none =>
      rw [addErrorItem_new P t item back hb hf]
      simp [hne, hf]
    | some i =>
      obtain ⟨file, hg, _⟩ := findFileItemIn_some P _ t.mModel i hf
      rw [addErrorItem_found P t item back hb i file hf hg]
      by_cases hd : (file.children.any
          (fun r => sameRow r.cols (t.errorRow P item back).cols)) = true
      · simp only [hd, if_true, true_iff]
        right
        obtain ⟨row, hrow, hs⟩ := List.any_eq_true.1 hd
        exact ⟨back, i, file, row, rfl, hf, hg, hrow, (sameRow_errorRow_iff P t item back row).1 hs⟩
      · rw [if_neg hd]
        refine ⟨fun h => by simp at h, ?_⟩
        rintro (he | ⟨back1, i1, file1, row, hb1, hf1, hg1, hrow, hc⟩)
        · exact absurd he hne
        · have e1 : back = back1 := by simpa using hb1
          subst e1
          have e2 : i = i1 := by simpa [hf] using hf1
          subst e2
          have e3 : file = file1 := Option.some.inj (hg.symm.trans hg1)
          subst e3
          exact absurd
            (List.any_eq_true.2 ⟨row, hrow, (sameRow_errorRow_iff P t item back row).2 hc⟩) hd

/-- C3: `addErrorItem` of a finding with an empty path returns false and leaves
the whole state as it was: no file item, no row, and the same value of
`hasVisibleResults`. -/
theorem addErrorItem_empty_path (P : Platform) (t : ResultsTree) (item : ErrorItem) :
    (t.addErrorItem P { item with errorPath := [] }).1 = false ∧
    (t.addErrorItem P { item with errorPath := [] }).2 = t ∧
    (t.addErrorItem P { item with errorPath := [] }).2.mModel = t.mModel ∧
    (t.addErrorItem P { item with errorPath := [] }).2.hasVisibleResults = t.hasVisibleResults := by
  simp [ResultsTree.addErrorItem]

/-! ## Effect of a successful `addErrorItem` -/

/-- C5: when `addErrorItem` returns true, there is one new error row, holding
the primary line, severity, error id, inconclusive flag, summary and message of
the finding with its `hide` key false, and either the file item selected for the
primary location keeps its text, its user data and its former rows in their
order, followed by the new row, every other file item being unchanged
(`List.set`), or no file item was selected and a file item with the new row as
its only row is appended at the end of the store. -/
theorem addErrorItem_true_appends (P : Platform) (t : ResultsTree) (item : ErrorItem)
    (h : (t.addErrorItem P item).1 = true) :
    ∃ back row, item.errorPath.getLast? = some back ∧
      row.data.line = back.line ∧ row.cols.line = number back.line ∧
      row.data.severity = ShowTypes.SeverityToShowType item.severity ∧
      row.cols.severity = severityToTranslatedString item.severity ∧
      row.data.id = item.errorId ∧ row.cols.id = item.errorId ∧
      row.data.inconclusive = item.inconclusive ∧
      row.cols.inconclusive = some item.inconclusive ∧
      row.data.summary = item.summary ∧ row.cols.summary = item.summary ∧
      row.data.message = item.message ∧ row.data.hide = false ∧
      ((∃ i file file1,
          t.findFileItem P (toNativeSeparators P (t.stripPath P back.file false)) = some i ∧
          t.mModel.get? i = some file ∧
          file1.text = file.text ∧ file1.data = file.data ∧
          file1.children = file.children ++ [row] ∧
          (t.addErrorItem P item).2.mModel = t.mModel.set i file1) ∨
       (∃ file1,
          t.findFileItem P (toNativeSeparators P (t.stripPath P back.file false)) = none ∧
          file1.text = toNativeSeparators P (t.stripPath P back.file false) ∧
          file1.data = { file := back.file, file0 := item.file0, hide := false } ∧
          file1.children = [row] ∧
          (t.addErrorItem P item).2.mModel = t.mModel ++ [file1])) := by
  cases hb : item.errorPath.getLast? with
  | none => simp [ResultsTree.addErrorItem, hb] at h
  | some back =>
    refine ⟨back, t.errorRow P item back, rfl, rfl, rfl, rfl, rfl, rfl, rfl, rfl, rfl, rfl, rfl,
      rfl, rfl, ?_⟩
    cases hf : t.findFileItem P (toNativeSeparators P (t.stripPath P back.file false)) with
    | none =>
      right
      rw [addErrorItem_new P t item back hb hf]
      exact ⟨_, rfl, rfl, rfl, rfl, rfl⟩
    | some i =>
      left
      obtain ⟨file, hg, _⟩ := findFileItemIn_some P _ t.mModel i hf
      rw [addErrorItem_found P t item back hb i file hf hg] at h ⊢
      by_cases hd : (file.children.any
          (fun r => sameRow r.cols (t.errorRow P item back).cols)) = true
      · rw [if_pos hd] at h
        simp at h
      · rw [if_neg hd]
        exact ⟨i, file,
          { file with
            children := file.children ++ [t.errorRow P item back]
            hidden := if !(t.hideOnInsert P item back) then false else file.hidden },
          rfl, hg, rfl, rfl, rfl, rfl⟩

/-- Witness for C5: the sample finding is accepted by the empty sample store. -/
theorem addErrorItem_true_appends_witness :
    (sampleTree.addErrorItem samplePlatform sampleFinding).1 = true ∧
    ∃ back row, sampleFinding.errorPath.getLast? = some back ∧
      row.data.line = back.line ∧ row.cols.line = number back.line ∧
      row.data.severity = ShowTypes.SeverityToShowType sampleFinding.severity ∧
      row.cols.severity = severityToTranslatedString sampleFinding.severity ∧
      row.data.id = sampleFinding.errorId ∧ row.cols.id = sampleFinding.errorId ∧
      row.data.inconclusive = sampleFinding.inconclusive ∧
      row.cols.inconclusive = some sampleFinding.inconclusive ∧
      row.data.summary = sampleFinding.summary ∧ row.cols.summary = sampleFinding.summary ∧
      row.data.message = sampleFinding.message ∧ row.data.hide = false ∧
      ((∃ i file file1,
          sampleTree.findFileItem samplePlatform
            (toNativeSeparators samplePlatform
              (sampleTree.stripPath samplePlatform back.file false)) = some i ∧
          sampleTree.mModel.get? i = some file ∧
          file1.text = file.text ∧ file1.data = file.data ∧
          file1.children = file.children ++ [row] ∧
          (sampleTree.addErrorItem samplePlatform sampleFinding).2.mModel =
            sampleTree.mModel.set i file1) ∨
       (∃ file1,
          sampleTree.findFileItem samplePlatform
            (toNativeSeparators samplePlatform
              (sampleTree.stripPath samplePlatform back.file false)) = none ∧
          file1.text = toNativeSeparators samplePlatform
            (sampleTree.stripPath samplePlatform back.file false) ∧
          file1.data = { file := back.file, file0 := sampleFinding.file0, hide := false } ∧
          file1.children = [row] ∧
          (sampleTree.addErrorItem samplePlatform sampleFinding).2.mModel =
            sampleTree.mModel ++ [file1])) :=
  ⟨by decide, addErrorItem_true_appends samplePlatform sampleTree sampleFinding (by decide)⟩

/-! ## Inserting a finding twice -/

/-- C2: for a state without duplicate rows and a finding with a non-empty path,
a second `addErrorItem` of the same finding right after the first returns false
and leaves the state, hence every row, as it was after the first, and the file
item of the primary location then has exactly one error row that shows the line,
severity and summary of the finding. -/
theorem addErrorItem_twice (P : Platform) (t : ResultsTree) (item : ErrorItem)
    (hpath : item.errorPath ≠ []) (hnd : t.NoDuplicateRows) :
    ((t.addErrorItem P item).2.addErrorItem P item).1 = false ∧
    ((t.addErrorItem P item).2.addErrorItem P item).2 = (t.addErrorItem P item).2 ∧
    ∃ back i file, item.errorPath.getLast? = some back ∧
      (t.addErrorItem P item).2.findFileItem P
        (toNativeSeparators P (t.stripPath P back.file false)) = some i ∧
      (t.addErrorItem P item).2.mModel.get? i = some file ∧
      file.children.countP (fun r => decide (r.carries back.line item.severity item.summary)) = 1 := by
  cases hb : item.errorPath.getLast? with
  | none => exact absurd (List.getLast?_eq_none_iff.1 hb) hpath
  | some back =>
    have hsv := sameSettings_markVisible t (t.hideOnInsert P item back)
    cases hf : t.findFileItem P (toNativeSeparators P (t.stripPath P back.file false)) with
    | none =>
      rw [addErrorItem_new P t item back hb hf]
      -- the state after the first insert
      generalize hu : ({ t.markVisible (t.hideOnInsert P item back) with
               mModel := t.mModel ++
                 [{ text := toNativeSeparators P (t.stripPath P back.file false)
                    data := { file := back.file, file0 := item.file0, hide := false }
                    hidden := t.hideOnInsert P item back
                    children := [t.errorRow P item back] }] } : ResultsTree) = u
      have hs : t.sameSettings u := by
        subst hu; exact hsv
      have hm : u.mModel = t.mModel ++
                 [{ text := toNativeSeparators P (t.stripPath P back.file false)
                    data := { file := back.file, file0 := item.file0, hide := false }
                    hidden := t.hideOnInsert P item back
                    children := [t.errorRow P item back] }] := by
        subst hu; rfl
      have hmv : u.markVisible (t.hideOnInsert P item back) = u := by
        subst hu
        unfold ResultsTree.markVisible
        cases t.hideOnInsert P item back <;> simp
      have hfu : u.findFileItem P (toNativeSeparators P (u.stripPath P back.file false)) =
          some t.mModel.length := by
        rw [sameSettings_stripPath P hs]
        unfold ResultsTree.findFileItem
        rw [hm]
        exact findFileItemIn_append_new P _ _ _ hf rfl
      have hgu : u.mModel.get? t.mModel.length = some
          { text := toNativeSeparators P (t.stripPath P back.file false)
            data := { file := back.file, file0 := item.file0, hide := false }
            hidden := t.hideOnInsert P item back
            children := [t.errorRow P item back] } := by
        rw [hm]; simp
      have h2 := addErrorItem_found P u item back hb _ _ hfu hgu
      rw [sameSettings_errorRow P hs, sameSettings_hideOnInsert P hs, hmv] at h2
      have hd : ([t.errorRow P item back].any
          (fun r => sameRow r.cols (t.errorRow P item back).cols)) = true := by
        simp [(sameRow_errorRow_iff P t item back _).2 (errorRow_carries P t item back)]
      simp only [hd, if_true] at h2
      refine ⟨by rw [h2], by rw [h2], back, t.mModel.length, _, rfl, ?_, hgu, ?_⟩
      · rw [← sameSettings_stripPath P hs]; exact hfu
      · have := errorRow_carries P t item back
        simp [List.countP_cons, this]
    | some i =>
      obtain ⟨file, hg, _⟩ := findFileItemIn_some P _ t.mModel i hf
      rw [addErrorItem_found P t item back hb i file hf hg]
      by_cases hd : (file.children.any
          (fun r => sameRow r.cols (t.errorRow P item back).cols)) = true
      · rw [if_pos hd]
        generalize hu : t.markVisible (t.hideOnInsert P item back) = u
        have hs : t.sameSettings u := by subst hu; exact hsv
        have hm : u.mModel = t.mModel := by subst hu; simp
        have hmv : u.markVisible (t.hideOnInsert P item back) = u := by
          subst hu; exact markVisible_idem _ _
        have hfu : u.findFileItem P (toNativeSeparators P (u.stripPath P back.file false)) =
            some i := by
          rw [sameSettings_stripPath P hs]
          unfold ResultsTree.findFileItem
          rw [hm]; exact hf
        have hgu : u.mModel.get? i = some file := by rw [hm]; exact hg
        have h2 := addErrorItem_found P u item back hb _ _ hfu hgu
        rw [sameSettings_errorRow P hs, sameSettings_hideOnInsert P hs, hmv, if_pos hd] at h2
        refine ⟨by rw [h2], by rw [h2], back, i, file, rfl, ?_, hgu, ?_⟩
        · rw [← sameSettings_stripPath P hs]; exact hfu
        · obtain ⟨row, hrow, hsr⟩ := List.any_eq_true.1 hd
          exact countP_eq_one_of_pairwise _ _ _ _
            (hnd file (List.get?_mem hg))
            ⟨row, hrow, (sameRow_errorRow_iff P t item back row).1 hsr⟩
      · rw [if_neg hd]
        generalize hfile1 : ({ file with
                     children := file.children ++ [t.errorRow P item back]
                     hidden := if !(t.hideOnInsert P item back) then false else file.hidden }
                      : FileItem) = file1
        have hch : file1.children = file.children ++ [t.errorRow P item back] := by
          subst hfile1; rfl
        have htx : file1.text = file.text := by subst hfile1; rfl
        generalize hu : ({ t.markVisible (t.hideOnInsert P item back) with
                 mModel := t.mModel.set i file1 } : ResultsTree) = u
        have hs : t.sameSettings u := by subst hu; exact hsv
        have hm : u.mModel = t.mModel.set i file1 := by subst hu; rfl
        have hmv : u.markVisible (t.hideOnInsert P item back) = u := by
          subst hu
          unfold ResultsTree.markVisible
          cases t.hideOnInsert P item back <;> simp
        have hfu : u.findFileItem P (toNativeSeparators P (u.stripPath P back.file false)) =
            some i := by
          rw [sameSettings_stripPath P hs]
          unfold ResultsTree.findFileItem
          rw [hm, findFileItemIn_congr P _ _ _ (map_text_set _ _ _ _ hg htx)]
          exact hf
        have hlt : i < t.mModel.length := by
          have := List.get?_eq_some.1 hg
          exact this.1
        have hgu : u.mModel.get? i = some file1 := by
          rw [hm]; simp [hlt]
        have h2 := addErrorItem_found P u item back hb _ _ hfu hgu
        have hd1 : (file1.children.any
          (fun r => sameRow r.cols (t.errorRow P item back).cols)) = true := by
          rw [hch]
          simp [(sameRow_errorRow_iff P t item back _).2 (errorRow_carries P t item back)]
        rw [sameSettings_errorRow P hs, sameSettings_hideOnInsert P hs, hmv, if_pos hd1] at h2
        refine ⟨by rw [h2], by rw [h2], back, i, file1, rfl, ?_, hgu, ?_⟩
        · rw [← sameSettings_stripPath P hs]; exact hfu
        · rw [hch, List.countP_append]
          have hz : file.children.countP
              (fun r => decide (r.carries back.line item.severity item.summary)) = 0 := by
            rw [List.countP_eq_zero]
            intro b hb1 hcb
            have hcb : b.carries back.line item.severity item.summary := by simpa using hcb
            exact hd (List.any_eq_true.2 ⟨b, hb1, (sameRow_errorRow_iff P t item back b).2 hcb⟩)
          have := errorRow_carries P t item back
          simp [hz, List.countP_cons, this]

/-- Witness for C2: the sample finding and the empty sample store. -/
theorem addErrorItem_twice_witness :
    sampleFinding.errorPath ≠ [] ∧ sampleTree.NoDuplicateRows ∧
    ((sampleTree.addErrorItem samplePlatform sampleFinding).2.addErrorItem samplePlatform
      sampleFinding).1 = false ∧
    ((sampleTree.addErrorItem samplePlatform sampleFinding).2.addErrorItem samplePlatform
      sampleFinding).2 = (sampleTree.addErrorItem samplePlatform sampleFinding).2 ∧
    ∃ back i file, sampleFinding.errorPath.getLast? = some back ∧
      (sampleTree.addErrorItem samplePlatform sampleFinding).2.findFileItem samplePlatform
        (toNativeSeparators samplePlatform
          (sampleTree.stripPath samplePlatform back.file false)) = some i ∧
      (sampleTree.addErrorItem samplePlatform sampleFinding).2.mModel.get? i = some file ∧
      file.children.countP
        (fun r => decide (r.carries back.line sampleFinding.severity sampleFinding.summary)) = 1 :=
  ⟨by decide, by decide,
    addErrorItem_twice samplePlatform sampleTree sampleFinding (by decide) (by decide)⟩

/-! ## Rejected duplicates -/

/-- C4 (failing input): in the sample store whose only error row was hidden by
`hideResult`, `hasVisibleResults` is false; `addErrorItem` of the same finding
is rejected as a duplicate and leaves every file item and row as it was, yet
`hasVisibleResults` is true afterwards. -/
theorem addErrorItem_duplicate_sets_visible :
    hiddenRowTree.hasVisibleResults = false ∧
    (hiddenRowTree.addErrorItem samplePlatform sampleFinding).1 = false ∧
    (hiddenRowTree.addErrorItem samplePlatform sampleFinding).2.mModel = hiddenRowTree.mModel ∧
    (hiddenRowTree.addErrorItem samplePlatform sampleFinding).2.hasVisibleResults = true := by
  decide

/-! ## Invariants of the store -/

theorem sameSettings_refl (t : ResultsTree) : t.sameSettings t :=
  ⟨rfl, rfl, rfl, rfl, rfl, rfl⟩

theorem sameSettings_trans {t u v : ResultsTree} (h1 : t.sameSettings u)
    (h2 : u.sameSettings v) : t.sameSettings v :=
  ⟨h2.1.trans h1.1, h2.2.1.trans h1.2.1, h2.2.2.1.trans h1.2.2.1,
    h2.2.2.2.1.trans h1.2.2.2.1, h2.2.2.2.2.1.trans h1.2.2.2.2.1,
    h2.2.2.2.2.2.trans h1.2.2.2.2.2⟩

theorem removeFirst_sublist {α : Type} (p : α → Bool) :
    ∀ l : List α, (removeFirst p l).Sublist l := by
  intro l
  induction l with
  | nil => exact List.Sublist.slnil
  | cons a l ih =>
    simp only [removeFirst]
    split
    · exact List.sublist_cons_self a l
    · exact ih.cons₂ a

theorem storeInv_of_sublist (P : Platform) {t u : ResultsTree} (h : t.StoreInv P)
    (hs : t.sameSettings u) (hsub : u.mModel.Sublist t.mModel) : u.StoreInv P := by
  obtain ⟨h1, h2, h3, h4, h5⟩ := h
  refine ⟨fun f hf => h1 f (hsub.subset hf), fun f hf => h2 f (hsub.subset hf),
    h3.sublist (hsub.map _), fun f hf => ?_, fun f hf r hr => ?_⟩
  · rw [sameSettings_stripPath P hs]; exact h4 f (hsub.subset hf)
  · rw [sameSettings_stripPath P hs]; exact h5 f (hsub.subset hf) r hr

/-- The shape of the state after `addErrorItem`. -/
theorem addErrorItem_shape (P : Platform) (t : ResultsTree) (item : ErrorItem) :
    t.sameSettings (t.addErrorItem P item).2 ∧
    ((t.addErrorItem P item).2.mModel = t.mModel ∨
      ∃ back, item.errorPath.getLast? = some back ∧
        ((t.findFileItem P (toNativeSeparators P (t.stripPath P back.file false)) = none ∧
          (t.addErrorItem P item).2.mModel = t.mModel ++
            [{ text := toNativeSeparators P (t.stripPath P back.file false)
               data := { file := back.file, file0 := item.file0, hide := false }
               hidden := t.hideOnInsert P item back
               children := [t.errorRow P item back] }]) ∨
         (∃ i file,
            t.findFileItem P (toNativeSeparators P (t.stripPath P back.file false)) = some i ∧
            t.mModel.get? i = some file ∧
            sameFileName P file.text (toNativeSeparators P (t.stripPath P back.file false)) = true ∧
            (∀ r ∈ file.children, sameRow r.cols (t.errorRow P item back).cols = false) ∧
            (t.addErrorItem P item).2.mModel = t.mModel.set i
              { file with
                children := file.children ++ [t.errorRow P item back]
                hidden := if !(t.hideOnInsert P item back) then false else file.hidden }))) := by
  cases hb : item.errorPath.getLast? with
  | none =>
    simp [ResultsTree.addErrorItem, hb, sameSettings_refl]
  | some back =>
    have hsv := sameSettings_markVisible t (t.hideOnInsert P item back)
    cases hf : t.findFileItem P (toNativeSeparators P (t.stripPath P back.file false)) with
    | none =>
      rw [addErrorItem_new P t item back hb hf]
      exact ⟨hsv, Or.inr ⟨back, rfl, Or.inl ⟨hf, rfl⟩⟩⟩
    | some i =>
      obtain ⟨file, hg, hname⟩ := findFileItemIn_some P _ t.mModel i hf
      rw [addErrorItem_found P t item back hb i file hf hg]
      by_cases hd : (file.children.any
          (fun r => sameRow r.cols (t.errorRow P item back).cols)) = true
      · rw [if_pos hd]
        exact ⟨hsv, Or.inl (by simp)⟩
      · rw [if_neg hd]
        refine ⟨hsv, Or.inr ⟨back, rfl, Or.inr ⟨i, file, hf, hg, hname, ?_, rfl⟩⟩⟩
        intro r hr
        cases hsr : sameRow r.cols (t.errorRow P item back).cols with
        | false => rfl
        | true => exact absurd (List.any_eq_true.2 ⟨r, hr, hsr⟩) hd

theorem errorRow_wellFormed (P : Platform) (t : ResultsTree) (item : ErrorItem)
    (back : QErrorPathItem) :
    ∃ sev, (t.errorRow P item back).carries (t.errorRow P item back).data.line sev
      (t.errorRow P item back).data.summary :=
  ⟨item.severity, errorRow_carries P t item back⟩

theorem storeInv_addErrorItem (P : Platform) (t : ResultsTree) (item : ErrorItem)
    (h : t.StoreInv P) : (t.addErrorItem P item).2.StoreInv P := by
  obtain ⟨hs, hshape⟩ := addErrorItem_shape P t item
  obtain ⟨h1, h2, h3, h4, h5⟩ := h
  rcases hshape with hm | ⟨back, hb, ⟨hf, hm⟩ | ⟨i, file, hf, hg, hname, hnd, hm⟩⟩
  · exact storeInv_of_sublist P ⟨h1, h2, h3, h4, h5⟩ hs (by rw [hm])
  · -- a new file item at the end
    refine ⟨?_, ?_, ?_, ?_, ?_⟩
    · intro f hfm
      rw [hm, List.mem_append, List.mem_singleton] at hfm
      rcases hfm with hfm | rfl
      · exact h1 f hfm
      · exact List.pairwise_singleton _ _
    · intro f hfm r hr
      rw [hm, List.mem_append, List.mem_singleton] at hfm
      rcases hfm with hfm | rfl
      · exact h2 f hfm r hr
      · rw [List.mem_singleton.1 hr]; exact errorRow_wellFormed P t item back
    · rw [hm, List.map_append, List.pairwise_append]
      refine ⟨h3, List.pairwise_singleton _ _, ?_⟩
      intro a ha b hb1
      rw [List.map_singleton, List.mem_singleton] at hb1
      subst hb1
      obtain ⟨f, hfm, rfl⟩ := List.mem_map.1 ha
      exact findFileItemIn_none P _ t.mModel hf f hfm
    · intro f hfm
      rw [sameSettings_stripPath P hs]
      rw [hm, List.mem_append, List.mem_singleton] at hfm
      rcases hfm with hfm | rfl
      · exact h4 f hfm
      · rfl
    · intro f hfm r hr
      rw [sameSettings_stripPath P hs]
      rw [hm, List.mem_append, List.mem_singleton] at hfm
      rcases hfm with hfm | rfl
      · exact h5 f hfm r hr
      · rw [List.mem_singleton.1 hr]; exact sameFileName_refl P _
  · -- a new last row of an existing file item
    have hfmem : file ∈ t.mModel := List.get?_mem hg
    have hmem : ∀ f ∈ (t.addErrorItem P item).2.mModel, f ∈ t.mModel ∨
        f = { file with
              children := file.children ++ [t.errorRow P item back]
              hidden := if !(t.hideOnInsert P item back) then false else file.hidden } := by
      intro f hfm
      rw [hm] at hfm
      exact List.mem_or_eq_of_mem_set hfm
    refine ⟨?_, ?_, ?_, ?_, ?_⟩
    · intro f hfm
      rcases hmem f hfm with hfm | rfl
      · exact h1 f hfm
      · show (file.children ++ [t.errorRow P item back]).Pairwise _
        rw [List.pairwise_append]
        refine ⟨h1 file hfmem, List.pairwise_singleton _ _, ?_⟩
        intro a ha b hb1
        rw [List.mem_singleton.1 hb1]
        exact hnd a ha
    · intro f hfm r hr
      rcases hmem f hfm with hfm | rfl
      · exact h2 f hfm r hr
      · rcases List.mem_append.1 hr with hr | hr
        · exact h2 file hfmem r hr
        · rw [List.mem_singleton.1 hr]; exact errorRow_wellFormed P t item back
    · rw [hm, map_text_set t.mModel i file
        { file with
          children := file.children ++ [t.errorRow P item back]
          hidden := if !(t.hideOnInsert P item back) then false else file.hidden } hg rfl]
      exact h3
    · intro f hfm
      rw [sameSettings_stripPath P hs]
      rcases hmem f hfm with hfm | rfl
      · exact h4 f hfm
      · exact h4 file hfmem
    · intro f hfm r hr
      rw [sameSettings_stripPath P hs]
      rcases hmem f hfm with hfm | rfl
      · exact h5 f hfm r hr
      · rcases List.mem_append.1 hr with hr | hr
        · exact h5 file hfmem r hr
        · rw [List.mem_singleton.1 hr]; exact hname

theorem applyOp_sameSettings (P : Platform) (t : ResultsTree) (op : StoreOp) :
    t.sameSettings (t.applyOp P op) := by
  cases op with
  | insert finding => exact (addErrorItem_shape P t finding).1
  | clearAll => exact ⟨rfl, rfl, rfl, rfl, rfl, rfl⟩
  | clearFile filename => exact ⟨rfl, rfl, rfl, rfl, rfl, rfl⟩
  | clearFileForRecheck filename => exact ⟨rfl, rfl, rfl, rfl, rfl, rfl⟩

theorem applyOp_storeInv (P : Platform) (t : ResultsTree) (op : StoreOp) (h : t.StoreInv P) :
    (t.applyOp P op).StoreInv P := by
  cases op with
  | insert finding => exact storeInv_addErrorItem P t finding h
  | clearAll =>
    exact storeInv_of_sublist P h (applyOp_sameSettings P t .clearAll) (List.nil_sublist _)
  | clearFile filename =>
    exact storeInv_of_sublist P h (applyOp_sameSettings P t (.clearFile filename))
      (removeFirst_sublist _ _)
  | clearFileForRecheck filename =>
    exact storeInv_of_sublist P h (applyOp_sameSettings P t (.clearFileForRecheck filename))
      (removeFirst_sublist _ _)

theorem run_sameSettings (P : Platform) (ops : List StoreOp) :
    ∀ t : ResultsTree, t.sameSettings (t.run P ops) := by
  induction ops with
  | nil => intro t; exact sameSettings_refl t
  | cons op ops ih =>
    intro t
    exact sameSettings_trans (applyOp_sameSettings P t op) (ih (t.applyOp P op))

theorem run_storeInv (P : Platform) (ops : List StoreOp) :
    ∀ t : ResultsTree, t.StoreInv P → (t.run P ops).StoreInv P := by
  induction ops with
  | nil => intro t h; exact h
  | cons op ops ih =>
    intro t h
    exact ih (t.applyOp P op) (applyOp_storeInv P t op h)

theorem storeInv_of_empty (P : Platform) (t : ResultsTree) (h : t.mModel = []) :
    t.StoreInv P := by
  simp [ResultsTree.StoreInv, ResultsTree.NoDuplicateRows, h]

theorem sameFileName_comm (P : Platform) (a b : String) :
    sameFileName P a b = sameFileName P b a := by
  unfold sameFileName equalsCI
  split
  · rw [Bool.eq_iff_iff]; simp only [beq_iff_eq]; exact eq_comm
  · rw [Bool.eq_iff_iff]; simp only [beq_iff_eq]; exact eq_comm

/-- C6: after any sequence of `addErrorItem`, `clear()`, `clear(filename)` and
`clearRecheckFile` calls on a state with an empty store, every error row shows
exactly one triple of line, severity and summary, made of its own line, a
severity and its own summary, and no file item has two error rows that show the
same triple. -/
theorem run_noDuplicateRows (P : Platform) (t : ResultsTree) (h0 : t.mModel = [])
    (ops : List StoreOp) :
    ∀ file ∈ (t.run P ops).mModel,
      (∀ r ∈ file.children, ∃ sev, r.carries r.data.line sev r.data.summary ∧
        ∀ line1 sev1 summary1, r.carries line1 sev1 summary1 →
          line1 = r.data.line ∧ sev1 = sev ∧ summary1 = r.data.summary) ∧
      file.children.Pairwise (fun a b =>
        ∀ line sev summary, a.carries line sev summary → ¬ b.carries line sev summary) := by
  intro file hfile
  obtain ⟨h1, h2, _⟩ := run_storeInv P ops t (storeInv_of_empty P t h0)
  refine ⟨fun r hr => ?_, (h1 file hfile).imp ?_⟩
  · obtain ⟨sev, hc⟩ := h2 file hfile r hr
    exact ⟨sev, hc, fun _ _ _ hc1 => carries_unique hc hc1⟩
  · intro a b hab line sev summary ha hb
    simp [sameRow, ha.1, ha.2.1, ha.2.2, hb.1, hb.2.1, hb.2.2] at hab

/-- Witness for C6: the sample operations on the empty sample store. -/
theorem run_noDuplicateRows_witness :
    sampleTree.mModel = [] ∧ sampleFile ∈ (sampleTree.run samplePlatform sampleOps).mModel ∧
    (∀ r ∈ sampleFile.children, ∃ sev, r.carries r.data.line sev r.data.summary ∧
      ∀ line1 sev1 summary1, r.carries line1 sev1 summary1 →
        line1 = r.data.line ∧ sev1 = sev ∧ summary1 = r.data.summary) ∧
    sampleFile.children.Pairwise (fun a b =>
      ∀ line sev summary, a.carries line sev summary → ¬ b.carries line sev summary) :=
  ⟨rfl, by decide,
    run_noDuplicateRows samplePlatform sampleTree rfl sampleOps sampleFile (by decide)⟩

/-- C7: after any sequence of `addErrorItem`, `clear()`, `clear(filename)` and
`clearRecheckFile` calls on a state with an empty store, the check directory and
the show-full-path setting are what they were, no two file items have texts that
`findFileItem` takes for the same name (exact comparison, or comparison without
regard to case when `_WIN32` is defined), the text of every file item is the
display name of its file, and every error row lies below a file item whose text
`findFileItem` takes for the display name of the row's own primary file. -/
theorem run_identityKeys (P : Platform) (t : ResultsTree) (h0 : t.mModel = [])
    (ops : List StoreOp) :
    (t.run P ops).mCheckPath = t.mCheckPath ∧
    (t.run P ops).mShowFullPath = t.mShowFullPath ∧
    (t.run P ops).mModel.Pairwise (fun a b =>
      sameFileName P a.text b.text = false ∧ sameFileName P b.text a.text = false) ∧
    ∀ file ∈ (t.run P ops).mModel,
      file.text = toNativeSeparators P (t.stripPath P file.data.file false) ∧
      ∀ r ∈ file.children,
        sameFileName P file.text
          (toNativeSeparators P (t.stripPath P r.data.file false)) = true := by
  have hs := run_sameSettings P ops t
  obtain ⟨_, _, h3, h4, h5⟩ := run_storeInv P ops t (storeInv_of_empty P t h0)
  refine ⟨hs.1, hs.2.1, ?_, ?_⟩
  · rw [List.pairwise_map] at h3
    exact h3.imp (fun {a b} hab => ⟨hab, by rw [sameFileName_comm]; exact hab⟩)
  · intro file hfile
    refine ⟨?_, fun r hr => ?_⟩
    · rw [← sameSettings_stripPath P hs]; exact h4 file hfile
    · rw [← sameSettings_stripPath P hs]; exact h5 file hfile r hr

/-- Witness for C7: the sample operations on the empty sample store. -/
theorem run_identityKeys_witness :
    sampleTree.mModel = [] ∧
    (sampleTree.run samplePlatform sampleOps).mCheckPath = sampleTree.mCheckPath ∧
    (sampleTree.run samplePlatform sampleOps).mShowFullPath = sampleTree.mShowFullPath ∧
    (sampleTree.run samplePlatform sampleOps).mModel.Pairwise (fun a b =>
      sameFileName samplePlatform a.text b.text = false ∧
      sameFileName samplePlatform b.text a.text = false) ∧
    ∀ file ∈ (sampleTree.run samplePlatform sampleOps).mModel,
      file.text = toNativeSeparators samplePlatform
        (sampleTree.stripPath samplePlatform file.data.file false) ∧
      ∀ r ∈ file.children,
        sameFileName samplePlatform file.text
          (toNativeSeparators samplePlatform
            (sampleTree.stripPath samplePlatform r.data.file false)) = true :=
  ⟨rfl, run_identityKeys samplePlatform sampleTree rfl sampleOps⟩

/-! ## The visibility pass -/

theorem refreshFile_shown_iff (P : Platform) (t : ResultsTree) (f0 : FileItem) :
    (t.refreshFile P f0).hidden = false ↔
      ((∃ r ∈ (t.refreshFile P f0).children, r.hidden = false) ∧
        (t.refreshFile P f0).data.hide = false) := by
  simp only [ResultsTree.refreshFile]
  cases f0.data.hide <;> simp

theorem hideOnRefresh_eq_false_iff (P : Platform) (t : ResultsTree) (data : ErrorData) :
    t.hideOnRefresh P data = false ↔ t.rowPasses P data := by
  unfold ResultsTree.hideOnRefresh ResultsTree.rowPasses
  cases data.hide <;> cases t.mShowSeverities.isShown data.severity <;>
    cases isEmpty t.mFilter <;> cases containsCI P data.summary t.mFilter <;>
    cases containsCI P data.message t.mFilter <;> cases containsCI P data.file t.mFilter <;>
    cases containsCI P data.id t.mFilter <;> simp

/-- C8: after `refreshTree`, an error row of a file item is shown exactly when
the category of its severity is enabled, the filter is empty or occurs without
regard to case in its summary, message, raw primary file or error id, and its
`hide` key is false. -/
theorem refreshTree_row_shown_iff (P : Platform) (t : ResultsTree) :
    ∀ file ∈ (t.refreshTree P).mModel, ∀ r ∈ file.children,
      (r.hidden = false ↔ (t.refreshTree P).rowPasses P r.data) := by
  intro file hfile r hr
  simp only [ResultsTree.refreshTree, List.mem_map] at hfile
  obtain ⟨f0, _, rfl⟩ := hfile
  simp only [ResultsTree.refreshFile, List.mem_map] at hr
  obtain ⟨r0, _, rfl⟩ := hr
  exact hideOnRefresh_eq_false_iff P t r0.data

/-- Witness for C8: the sample row in the sample store after one insertion. -/
theorem refreshTree_row_shown_iff_witness :
    sampleFile ∈ (insertedTree.refreshTree samplePlatform).mModel ∧
    sampleRow ∈ sampleFile.children ∧
    (sampleRow.hidden = false ↔
      (insertedTree.refreshTree samplePlatform).rowPasses samplePlatform sampleRow.data) :=
  ⟨by decide, by decide,
    refreshTree_row_shown_iff samplePlatform insertedTree sampleFile (by decide) sampleRow
      (by decide)⟩

/-- C9: after `refreshTree`, a file item is shown exactly when one of its error
rows is shown and its own `hide` key is false. -/
theorem refreshTree_file_shown_iff (P : Platform) (t : ResultsTree) :
    ∀ file ∈ (t.refreshTree P).mModel,
      (file.hidden = false ↔ ((∃ r ∈ file.children, r.hidden = false) ∧ file.data.hide = false)) := by
  intro file hfile
  simp only [ResultsTree.refreshTree, List.mem_map] at hfile
  obtain ⟨f0, _, rfl⟩ := hfile
  exact refreshFile_shown_iff P t f0

/-- Witness for C9: the sample file item in the sample store after one
insertion. -/
theorem refreshTree_file_shown_iff_witness :
    sampleFile ∈ (insertedTree.refreshTree samplePlatform).mModel ∧
    (sampleFile.hidden = false ↔
      ((∃ r ∈ sampleFile.children, r.hidden = false) ∧ sampleFile.data.hide = false)) :=
  ⟨by decide,
    refreshTree_file_shown_iff samplePlatform insertedTree sampleFile (by decide)⟩

/-- C10 (counterexample): in the sample store whose only file item was hidden by
`hideResult`, after `refreshTree` no file item is shown and `hasVisibleResults`
is true. -/
theorem hasVisibleResults_hidden_file :
    ¬ ((hiddenFileTree.refreshTree samplePlatform).hasVisibleResults = true ↔
        ∃ file ∈ (hiddenFileTree.refreshTree samplePlatform).mModel, file.hidden = false) := by
  decide

/-- C10 (amended): after `refreshTree`, `hasVisibleResults` is true exactly when
some error row of some file item is shown; when no file item has its `hide` key
set, that is exactly when some file item is shown. -/
theorem refreshTree_hasVisibleResults_iff (P : Platform) (t : ResultsTree) :
    ((t.refreshTree P).hasVisibleResults = true ↔
      ∃ file ∈ (t.refreshTree P).mModel, ∃ r ∈ file.children, r.hidden = false) ∧
    ((∀ file ∈ t.mModel, file.data.hide = false) →
      ((t.refreshTree P).hasVisibleResults = true ↔
        ∃ file ∈ (t.refreshTree P).mModel, file.hidden = false)) := by
  have h1 : (t.refreshTree P).hasVisibleResults = true ↔
      ∃ file ∈ (t.refreshTree P).mModel, ∃ r ∈ file.children, r.hidden = false := by
    simp [ResultsTree.refreshTree, ResultsTree.hasVisibleResults, ResultsTree.refreshFile]
  refine ⟨h1, fun hh => ?_⟩
  rw [h1]
  constructor
  · rintro ⟨file, hfile, r, hr, hrh⟩
    refine ⟨file, hfile, ?_⟩
    simp only [ResultsTree.refreshTree, List.mem_map] at hfile
    obtain ⟨f0, hf0, rfl⟩ := hfile
    exact (refreshFile_shown_iff P t f0).2 ⟨⟨r, hr, hrh⟩, hh f0 hf0⟩
  · rintro ⟨file, hfile, hfh⟩
    refine ⟨file, hfile, ?_⟩
    simp only [ResultsTree.refreshTree, List.mem_map] at hfile
    obtain ⟨f0, hf0, rfl⟩ := hfile
    exact ((refreshFile_shown_iff P t f0).1 hfh).1

/-- Witness for C10 (amended): the sample store after one insertion has no
hidden file item. -/
theorem refreshTree_hasVisibleResults_iff_witness :
    (∀ file ∈ insertedTree.mModel, file.data.hide = false) ∧
    ((insertedTree.refreshTree samplePlatform).hasVisibleResults = true ↔
      ∃ file ∈ (insertedTree.refreshTree samplePlatform).mModel, file.hidden = false) :=
  ⟨by decide, (refreshTree_hasVisibleResults_iff samplePlatform insertedTree).2 (by decide)⟩

/-! ## Insertion below a manually hidden file item -/

/-- C11 (failing input): in the sample store whose only file item was hidden by
`hideResult`, `addErrorItem` accepts a second finding for the same file and
leaves the file item shown although its `hide` key is set, so the file item is
shown without being "not manually hidden". -/
theorem addErrorItem_unhides_hidden_file :
    (∀ file ∈ hiddenFileTree.mModel, file.data.hide = true ∧ file.hidden = true) ∧
    (hiddenFileTree.addErrorItem samplePlatform sampleFinding2).1 = true ∧
    (∀ file ∈ (hiddenFileTree.addErrorItem samplePlatform sampleFinding2).2.mModel,
      file.data.hide = true ∧ file.hidden = false) ∧
    ¬ (∀ file ∈ (hiddenFileTree.addErrorItem samplePlatform sampleFinding2).2.mModel,
      (file.hidden = false ↔
        ((∃ r ∈ file.children, r.hidden = false) ∧ file.data.hide = false))) := by
  decide

/-! ## Clearing the whole store -/

/-- C12 (counterexample): `clear()` on the sample store with one shown finding
leaves `hasVisibleResults` true. -/
theorem clear_keeps_hasVisibleResults :
    ¬ (insertedTree.clear.mModel = [] ∧ insertedTree.clear.hasResults = false ∧
        insertedTree.clear.hasVisibleResults = false) := by
  decide

/-- C12 (amended): after `clear()` the store has no file item and `hasResults`
is false; `hasVisibleResults` has the value it had before the call, and is
false after the next `refreshTree`. -/
theorem clear_spec (P : Platform) (t : ResultsTree) :
    t.clear.mModel = [] ∧ t.clear.hasResults = false ∧
    t.clear.hasVisibleResults = t.hasVisibleResults ∧
    (t.clear.refreshTree P).hasVisibleResults = false := by
  simp [ResultsTree.clear, ResultsTree.hasResults, ResultsTree.hasVisibleResults,
    ResultsTree.refreshTree]

theorem rowPasses_iff (P : Platform) (t : ResultsTree) (data : ErrorData) :
    t.rowPasses P data ↔ t.policyPasses P data ∧ data.hide = false := by
  unfold ResultsTree.rowPasses ResultsTree.policyPasses
  tauto

theorem refreshTree_mModel (P : Platform) (t : ResultsTree) :
    (t.refreshTree P).mModel = t.mModel.map (t.refreshFile P) := rfl

theorem refreshFile_data (P : Platform) (t : ResultsTree) (file : FileItem) :
    (t.refreshFile P file).data = file.data := rfl

theorem refreshFile_children (P : Platform) (t : ResultsTree) (file : FileItem) :
    (t.refreshFile P file).children =
      file.children.map (fun child => { child with hidden := t.hideOnRefresh P child.data }) := rfl

theorem hideOnRefresh_congr (P : Platform) (t u : ResultsTree)
    (h1 : u.mShowSeverities = t.mShowSeverities) (h2 : u.mFilter = t.mFilter)
    (data : ErrorData) : u.hideOnRefresh P data = t.hideOnRefresh P data := by
  simp [ResultsTree.hideOnRefresh, h1, h2]

/-! ## Showing all hidden results -/

/-- C14: after `showHiddenResults`, the `hide` key of every file item and of
every error row is false, and `hasVisibleResults` is true exactly when some
stored error row has an enabled severity category and matches the filter. -/
theorem showHiddenResults_spec (P : Platform) (t : ResultsTree) :
    (∀ file ∈ (t.showHiddenResults P).mModel,
      file.data.hide = false ∧ ∀ r ∈ file.children, r.data.hide = false) ∧
    ((t.showHiddenResults P).hasVisibleResults = true ↔
      ∃ file ∈ t.mModel, ∃ r ∈ file.children, t.policyPasses P r.data) := by
  constructor
  · intro file hfile
    simp only [ResultsTree.showHiddenResults, refreshTree_mModel, List.mem_map] at hfile
    obtain ⟨f1, ⟨f0, _, rfl⟩, rfl⟩ := hfile
    refine ⟨rfl, ?_⟩
    intro r hr
    simp only [refreshFile_children, clearHide, List.mem_map] at hr
    obtain ⟨r1, ⟨r0, _, rfl⟩, rfl⟩ := hr
    rfl
  · have key : (t.showHiddenResults P).hasVisibleResults =
        t.mModel.any (fun file => file.children.any
          (fun r => !t.hideOnRefresh P { r.data with hide := false })) := by
      simp only [ResultsTree.showHiddenResults, ResultsTree.hasVisibleResults,
        ResultsTree.refreshTree, any_map_eq, clearHide]
      rfl
    rw [key]
    simp only [List.any_eq_true, Bool.not_eq_true', hideOnRefresh_eq_false_iff, rowPasses_iff]
    constructor
    · rintro ⟨f0, hf0, r0, hr0, hp, _⟩
      exact ⟨f0, hf0, r0, hr0, hp⟩
    · rintro ⟨f0, hf0, r0, hr0, hp⟩
      exact ⟨f0, hf0, r0, hr0, hp, trivial⟩

/-! ## Export -/

theorem saveErrors_eq (P : Platform) (t : ResultsTree) (h : t.mSaveAllErrors = false) :
    ∀ rows : List ErrorRowItem,
      t.saveErrors P rows = (rows.filter (fun r => !r.hidden)).map (t.savedError P) := by
  intro rows
  induction rows with
  | nil => rfl
  | cons r rows ih =>
    simp only [ResultsTree.saveErrors, h, Bool.not_false, Bool.and_true, ih, List.filter_cons]
    cases r.hidden <;> simp

/-- C18: with the save-all mode off, `saveResults` hands to the report writer the
findings rebuilt from the shown error rows of the shown file items, one for each
such row and no other, file items in store order and rows in their order. -/
theorem saveResults_shown_rows (P : Platform) (t : ResultsTree)
    (h : t.mSaveAllErrors = false) :
    t.saveResults P =
      (t.mModel.filter (fun file => !file.hidden)).flatMap
        (fun file => (file.children.filter (fun r => !r.hidden)).map (t.savedError P)) := by
  unfold ResultsTree.saveResults
  induction t.mModel with
  | nil => rfl
  | cons f fs ih =>
    simp only [ResultsTree.saveResultsFrom, List.filter_cons, ih, saveErrors_eq P t h]
    cases f.hidden <;> simp [List.flatMap_cons]

/-- Witness for C18: the sample store after one insertion, save-all mode off. -/
theorem saveResults_shown_rows_witness :
    insertedTree.mSaveAllErrors = false ∧
    insertedTree.saveResults samplePlatform =
      (insertedTree.mModel.filter (fun file => !file.hidden)).flatMap
        (fun file =>
          (file.children.filter (fun r => !r.hidden)).map (insertedTree.savedError samplePlatform)) :=
  ⟨rfl, saveResults_shown_rows samplePlatform insertedTree rfl⟩

/-- C19 (failing input): with the category of errors disabled and the save-all
mode on, the sample finding is stored in a hidden row of a hidden file item, and
`saveResults` hands nothing to the report writer. -/
theorem saveResults_skips_hidden_file :
    (saveAllTree.addErrorItem samplePlatform sampleFinding).2.mSaveAllErrors = true ∧
    (saveAllTree.addErrorItem samplePlatform sampleFinding).1 = true ∧
    ((saveAllTree.addErrorItem samplePlatform sampleFinding).2.mModel.map
      (fun file => file.children.length)) = [1] ∧
    (saveAllTree.addErrorItem samplePlatform sampleFinding).2.saveResults samplePlatform = [] := by
  decide

/-- C20 (failing input): a finding whose two path steps have the same line and
the same note text in different files is accepted, its second step is dropped as
a duplicate note row, and the exported finding has a path of one step. -/
theorem saveResults_drops_path_step :
    twoStepFinding.errorPath.length = 2 ∧
    (sampleTree.addErrorItem samplePlatform twoStepFinding).1 = true ∧
    ((sampleTree.addErrorItem samplePlatform twoStepFinding).2.saveResults samplePlatform).map
      (fun item => item.errorPath) = [[⟨"a.h", 5, ""⟩]] := by
  decide

theorem hideOnRefresh_of_hide (P : Platform) (t : ResultsTree) (data : ErrorData)
    (h : data.hide = true) : t.hideOnRefresh P data = true := by
  simp [ResultsTree.hideOnRefresh, h]

/-- The file items after `hideAllIdResult` for a context item with id `x`: every
file item is marked by `hideId` and then refreshed. -/
theorem hideAllIdResult_mModel (P : Platform) (t : ResultsTree) (ref : ItemRef) (x : String)
    (hx : t.contextId ref = some x) :
    (t.hideAllIdResult P (some ref)).mModel =
      t.mModel.map (fun file =>
        ({ t with mModel := t.mModel.map (hideId x) } : ResultsTree).refreshFile P
          (hideId x file)) := by
  simp [ResultsTree.hideAllIdResult, hx, refreshTree_mModel, List.map_map, Function.comp_def]

/-! ## Hiding all results with one id -/

/-- C13: when the context item is a stored row with error id `x`,
`hideAllIdResult` keeps the file items and their error rows in place, and every
error row whose `id` is `x` has its `hide` key set and is hidden afterwards,
while every error row with another id keeps the `hide` key it had. -/
theorem hideAllIdResult_spec (P : Platform) (t : ResultsTree) (ref : ItemRef) (x : String)
    (hx : t.contextId ref = some x) :
    (t.hideAllIdResult P (some ref)).mModel.length = t.mModel.length ∧
    (∀ i file, t.mModel.get? i = some file →
      ∃ file1, (t.hideAllIdResult P (some ref)).mModel.get? i = some file1 ∧
        file1.children.length = file.children.length ∧
        ∀ j r, file.children.get? j = some r →
          ∃ r1, file1.children.get? j = some r1 ∧ r1.data.id = r.data.id ∧
            (r.data.id = x → r1.data.hide = true ∧ r1.hidden = true) ∧
            (r.data.id ≠ x → r1.data.hide = r.data.hide)) ∧
    (∀ file1 ∈ (t.hideAllIdResult P (some ref)).mModel, ∀ r1 ∈ file1.children,
      r1.data.id = x → r1.data.hide = true ∧ r1.hidden = true) := by
  rw [hideAllIdResult_mModel P t ref x hx]
  refine ⟨by simp, ?_, ?_⟩
  · intro i file hi
    refine ⟨_, by rw [List.get?_eq_getElem?] at hi ⊢; rw [List.getElem?_map, hi]; rfl,
      by simp [refreshFile_children, hideId], ?_⟩
    intro j r hj
    rw [List.get?_eq_getElem?] at hj
    refine ⟨_, by
      rw [refreshFile_children, List.get?_eq_getElem?, List.getElem?_map, hideId,
        List.getElem?_map, hj]; rfl, ?_⟩
    by_cases hid : r.data.id = x
    · simp [hid, hideOnRefresh_of_hide]
    · simp [hid]
  · intro file1 hfile1 r1 hr1 hid
    obtain ⟨file, _, rfl⟩ := List.mem_map.1 hfile1
    rw [refreshFile_children, hideId] at hr1
    simp only [List.map_map, List.mem_map, Function.comp_apply] at hr1
    obtain ⟨r, _, rfl⟩ := hr1
    by_cases hr : r.data.id = x
    · simp [hr, hideOnRefresh_of_hide]
    · exfalso
      simp [hr] at hid

/-- Witness for C13: the error row of the sample store as context item. -/
theorem hideAllIdResult_spec_witness :
    insertedTree.contextId (.error 0 0) = some "nullPointer" ∧
    (insertedTree.hideAllIdResult samplePlatform (some (.error 0 0))).mModel.length =
      insertedTree.mModel.length ∧
    (∀ i file, insertedTree.mModel.get? i = some file →
      ∃ file1, (insertedTree.hideAllIdResult samplePlatform (some (.error 0 0))).mModel.get? i =
          some file1 ∧
        file1.children.length = file.children.length ∧
        ∀ j r, file.children.get? j = some r →
          ∃ r1, file1.children.get? j = some r1 ∧ r1.data.id = r.data.id ∧
            (r.data.id = "nullPointer" → r1.data.hide = true ∧ r1.hidden = true) ∧
            (r.data.id ≠ "nullPointer" → r1.data.hide = r.data.hide)) ∧
    (∀ file1 ∈ (insertedTree.hideAllIdResult samplePlatform (some (.error 0 0))).mModel,
      ∀ r1 ∈ file1.children,
        r1.data.id = "nullPointer" → r1.data.hide = true ∧ r1.hidden = true) :=
  ⟨by decide, hideAllIdResult_spec samplePlatform insertedTree (.error 0 0) "nullPointer"
    (by decide)⟩

theorem startsWithList_append (p s : List Char) : startsWithList p (p ++ s) = true := by
  induction p with
  | nil => simp [startsWithList]
  | cons a p ih => simp [startsWithList, ih]

theorem startsWith_append (r y : String) : startsWith (r ++ y) r = true := by
  simp [startsWith, String.data_append, startsWithList_append]

theorem mid_append (r y : String) : mid (r ++ y) r.length = y := by
  show (⟨(r ++ y).data.drop r.data.length⟩ : String) = y
  rw [String.data_append, List.drop_left]

theorem isEmpty_eq_false {r : String} (h : r ≠ "") : isEmpty r = false := by
  cases hr : isEmpty r with
  | false => rfl
  | true =>
    exfalso
    apply h
    unfold isEmpty at hr
    apply String.ext
    simpa using hr

theorem cutCheckPath_below (t : ResultsTree) (p : String) (hr : t.mCheckPath ≠ "") :
    t.cutCheckPath (t.mCheckPath ++ "/" ++ p) = p := by
  have h1 : startsWith (t.mCheckPath ++ "/" ++ p) t.mCheckPath = true := by
    rw [String.append_assoc]; exact startsWith_append _ _
  have h2 : mid (t.mCheckPath ++ "/" ++ p) (t.mCheckPath.length + 1) = p := by
    have : t.mCheckPath.length + 1 = (t.mCheckPath ++ "/").length := by
      rw [String.length_append]; rfl
    rw [this]; exact mid_append _ _
  simp [ResultsTree.cutCheckPath, isEmpty_eq_false hr, h1, h2]

theorem cutCheckPath_other (t : ResultsTree) (p : String)
    (hp : startsWith p t.mCheckPath = false) : t.cutCheckPath p = p := by
  simp [ResultsTree.cutCheckPath, hp]

/-! ## Clearing one file -/

/-- C17: with a non-empty check directory `r` and a path `p` that does not
start with `r`, when the only file item of the store was created for the
primary file `r/p` or for the primary file `p`, `clearRecheckFile` of `r/p`
removes it and the store is empty afterwards. -/
theorem clearRecheckFile_removes (t : ResultsTree) (p : String) (file : FileItem)
    (hr : t.mCheckPath ≠ "") (hp : startsWith p t.mCheckPath = false)
    (hm : t.mModel = [file])
    (hf : file.data.file = t.mCheckPath ++ "/" ++ p ∨ file.data.file = p) :
    (t.clearRecheckFile (t.mCheckPath ++ "/" ++ p)).mModel = [] := by
  have hs : t.cutCheckPath file.data.file = p := by
    rcases hf with hf | hf
    · rw [hf]; exact cutCheckPath_below t p hr
    · rw [hf]; exact cutCheckPath_other t p hp
  simp [ResultsTree.clearRecheckFile, hm, removeFirst, cutCheckPath_below t p hr, hs]

/-- Witness for C17: the sample store after one insertion, whose only file item
was created for `/proj/a.c`. -/
theorem clearRecheckFile_removes_witness :
    insertedTree.mCheckPath ≠ "" ∧ startsWith "a.c" insertedTree.mCheckPath = false ∧
    insertedTree.mModel = [sampleFile] ∧
    (sampleFile.data.file = insertedTree.mCheckPath ++ "/" ++ "a.c" ∨
      sampleFile.data.file = "a.c") ∧
    (insertedTree.clearRecheckFile (insertedTree.mCheckPath ++ "/" ++ "a.c")).mModel = [] :=
  ⟨by decide, by decide, by decide, by decide,
    clearRecheckFile_removes insertedTree "a.c" sampleFile (by decide) (by decide) (by decide)
      (by decide)⟩

/-! ## Clearing by origin file and by display name -/

theorem addErrorItem_single (P : Platform) (u : ResultsTree) (file : FileItem) (g : ErrorItem)
    (back : QErrorPathItem) (hm : u.mModel = [file]) (hb : g.errorPath.getLast? = some back)
    (ht : file.text = toNativeSeparators P (u.stripPath P back.file false)) :
    ∃ file1, (u.addErrorItem P g).2.mModel = [file1] ∧ file1.text = file.text ∧
      file1.data = file.data := by
  have hfind : u.findFileItem P (toNativeSeparators P (u.stripPath P back.file false)) =
      some 0 := by
    simp [ResultsTree.findFileItem, hm, findFileItemIn, ← ht, sameFileName_refl]
  have hget : u.mModel.get? 0 = some file := by simp [hm]
  rw [addErrorItem_found P u g back hb 0 file hfind hget]
  split
  · exact ⟨file, by simp [hm], rfl, rfl⟩
  · exact ⟨{ file with
             children := file.children ++ [u.errorRow P g back]
             hidden := if !(u.hideOnInsert P g back) then false else file.hidden },
      by simp [hm], rfl, rfl⟩

theorem run_inserts_single (P : Platform) (h : String) :
    ∀ (rest : List ErrorItem) (u : ResultsTree) (file : FileItem),
      u.mModel = [file] →
      file.text = toNativeSeparators P (u.stripPath P h false) →
      (∀ g ∈ rest, ∃ back, g.errorPath.getLast? = some back ∧ back.file = h) →
      ∃ file1, (u.run P (rest.map StoreOp.insert)).mModel = [file1] ∧
        file1.text = file.text ∧ file1.data = file.data := by
  intro rest
  induction rest with
  | nil => intro u file hm _ _; exact ⟨file, hm, rfl, rfl⟩
  | cons g rest ih =>
    intro u file hm ht hall
    obtain ⟨back, hb, hbf⟩ := hall g (List.mem_cons_self _ _)
    obtain ⟨file1, hm1, ht1, hd1⟩ :=
      addErrorItem_single P u file g back hm hb (by rw [hbf]; exact ht)
    have hs := (addErrorItem_shape P u g).1
    obtain ⟨file2, hm2, ht2, hd2⟩ := ih (u.addErrorItem P g).2 file1 hm1
      (by rw [ht1, ht, sameSettings_stripPath P hs])
      (fun g1 hg1 => hall g1 (List.mem_cons_of_mem _ hg1))
    exact ⟨file2, hm2, ht2.trans ht1, hd2.trans hd1⟩

/-- C15 (counterexample): two findings in the header `/usr/include/foo.h` with
origin files `/proj/a.c` and `/proj/b.c` lie below one file item, and
`clear(filename)` with the origin file of the second finding removes nothing. -/
theorem clearFile_later_origin_keeps_entry :
    ¬ (((sampleTree.run samplePlatform [.insert headerFindingA, .insert headerFindingB]).clearFile
        samplePlatform headerFindingB.file0).mModel = []) := by
  decide

/-- C15 (amended): when findings that all have the primary file `h` are inserted
into an empty store, `clear(filename)` with the origin file of the first of them
removes the file item of `h` and the store is empty afterwards. -/
theorem clearFile_first_origin (P : Platform) (t : ResultsTree) (h : String) (f : ErrorItem)
    (rest : List ErrorItem) (h0 : t.mModel = [])
    (hall : ∀ g ∈ f :: rest, ∃ back, g.errorPath.getLast? = some back ∧ back.file = h) :
    ((t.run P ((f :: rest).map StoreOp.insert)).clearFile P f.file0).mModel = [] := by
  obtain ⟨back, hb, hbf⟩ := hall f (List.mem_cons_self _ _)
  have hnone : t.findFileItem P (toNativeSeparators P (t.stripPath P back.file false)) = none := by
    simp [ResultsTree.findFileItem, h0, findFileItemIn]
  have hfirst := addErrorItem_new P t f back hb hnone
  have hs := (addErrorItem_shape P t f).1
  have hm1 : (t.addErrorItem P f).2.mModel =
      [{ text := toNativeSeparators P (t.stripPath P back.file false)
         data := { file := back.file, file0 := f.file0, hide := false }
         hidden := t.hideOnInsert P f back
         children := [t.errorRow P f back] }] := by
    rw [hfirst]; simp [h0]
  obtain ⟨file1, hm, _, hd⟩ := run_inserts_single P h rest (t.addErrorItem P f).2 _ hm1
    (by rw [sameSettings_stripPath P hs, hbf])
    (fun g hg => hall g (List.mem_cons_of_mem _ hg))
  have hrun : t.run P ((f :: rest).map StoreOp.insert) =
      (t.addErrorItem P f).2.run P (rest.map StoreOp.insert) := rfl
  rw [hrun]
  simp [ResultsTree.clearFile, hm, removeFirst, hd]

/-- Witness for C15 (amended): the two header findings and the origin file of
the first. -/
theorem clearFile_first_origin_witness :
    sampleTree.mModel = [] ∧
    (∀ g ∈ [headerFindingA, headerFindingB],
      ∃ back, g.errorPath.getLast? = some back ∧ back.file = "/usr/include/foo.h") ∧
    ((sampleTree.run samplePlatform
      ([headerFindingA, headerFindingB].map StoreOp.insert)).clearFile samplePlatform
        headerFindingA.file0).mModel = [] :=
  ⟨rfl, by decide,
    clearFile_first_origin samplePlatform sampleTree "/usr/include/foo.h" headerFindingA
      [headerFindingB] rfl (by decide)⟩

/-- C16 (counterexample): the only file item of the sample store after one
insertion has the text `a.c`, the display name of its file `/proj/a.c`, and
`clear(filename)` with that text removes nothing. -/
theorem clearFile_identity_key_keeps_entry :
    insertedTree.mModel = [sampleFile] ∧
    sampleFile.text =
      toNativeSeparators samplePlatform
        (insertedTree.stripPath samplePlatform sampleFile.data.file false) ∧
    ¬ ((insertedTree.clearFile samplePlatform sampleFile.text).mModel = []) := by
  decide

/-- C16 (amended): for a store whose only file item is `file`, `clear(k)` empties
the store exactly when the display name of `k` is the raw file stored with the
file item or `k` is the origin file stored with it, and leaves the state as it
was otherwise; with show-full-path enabled in a non-Windows build this is the
case for `k` the text of the file item, the display name of its file. -/
theorem clearFile_single (P : Platform) (t : ResultsTree) (file : FileItem) (k : String)
    (hm : t.mModel = [file]) :
    ((t.clearFile P k).mModel = [] ↔
      (t.stripPath P k false = file.data.file ∨ k = file.data.file0)) ∧
    ((t.clearFile P k).mModel = [] ∨ t.clearFile P k = t) ∧
    (P.win32 = false → t.mShowFullPath = true →
      file.text = toNativeSeparators P (t.stripPath P file.data.file false) →
      (t.clearFile P file.text).mModel = []) := by
  have key : ∀ k1, (t.clearFile P k1).mModel = [] ↔
      (t.stripPath P k1 false = file.data.file ∨ k1 = file.data.file0) := by
    intro k1
    by_cases hc : t.stripPath P k1 false = file.data.file ∨ k1 = file.data.file0
    · simp only [hc, iff_true]
      rcases hc with hc | hc <;> simp [ResultsTree.clearFile, hm, removeFirst, hc]
    · simp only [hc, iff_false]
      rw [not_or] at hc
      simp [ResultsTree.clearFile, hm, removeFirst, hc.1, hc.2]
  refine ⟨key k, ?_, ?_⟩
  · by_cases hc : t.stripPath P k false = file.data.file ∨ k = file.data.file0
    · exact Or.inl ((key k).2 hc)
    · right
      rw [not_or] at hc
      have hrem : removeFirst
          (fun item => t.stripPath P k false == item.data.file || k == item.data.file0)
          t.mModel = t.mModel := by
        simp [hm, removeFirst, hc.1, hc.2]
      unfold ResultsTree.clearFile
      simp only [hrem]
  · intro hw hsf ht
    refine (key file.text).2 (Or.inl ?_)
    have hstrip : ∀ x, t.stripPath P x false = x := by
      intro x; simp [ResultsTree.stripPath, hsf]
    rw [hstrip, ht, hstrip]
    simp [toNativeSeparators, hw]

/-- Witness for C16 (amended): the sample store after one insertion, cleared
with the origin file stored with its file item. -/
theorem clearFile_single_witness :
    insertedTree.mModel = [sampleFile] ∧
    (insertedTree.clearFile samplePlatform "/proj/a.c").mModel = [] :=
  ⟨by decide,
    (clearFile_single samplePlatform insertedTree sampleFile "/proj/a.c" (by decide)).1.2
      (Or.inr (by decide))⟩

/-! ## Note rows and exported paths -/

theorem noteRow_base (P : Platform) (hide : Bool) (line : ErrorLine) (d e : QErrorPathItem) :
    noteRow P hide
      { line with file := d.file, line := d.line, message := d.info, summary := d.info } e =
      noteRow P hide line e := rfl

theorem sameRow_noteRow (P : Platform) (hide : Bool) (line line1 : ErrorLine)
    (d e : QErrorPathItem) :
    sameRow (noteRow P hide line d).cols (noteRow P hide line1 e).cols = true ↔
      d.line = e.line ∧ d.info = e.info := by
  simp only [sameRow, noteRow, rowColumns, Bool.and_eq_true, beq_iff_eq, if_true, and_true]
  constructor
  · rintro ⟨h1, h2⟩; exact ⟨number_injective h1, h2⟩
  · rintro ⟨h1, h2⟩; exact ⟨by rw [h1], h2⟩

/-- The loop over the diagnostic path adds one note row for every step, in path
order, when no two steps have the same line and the same note text. -/
theorem addNoteRows_distinct (P : Platform) (hide : Bool) (line0 : ErrorLine) :
    ∀ (es ds : List QErrorPathItem) (line : ErrorLine),
      (∀ e, noteRow P hide line e = noteRow P hide line0 e) →
      (ds ++ es).Pairwise (fun a b => ¬ (a.line = b.line ∧ a.info = b.info)) →
      addNoteRows P hide line es (ds.map (noteRow P hide line0)) =
        (ds ++ es).map (noteRow P hide line0) := by
  intro es
  induction es with
  | nil => intro ds line _ _; simp [addNoteRows]
  | cons e es ih =>
    intro ds line hbase hp
    have hno : ((ds.map (noteRow P hide line0)).map (·.cols)).any
        (fun child => sameRow child (noteRow P hide line e).cols) = false := by
      rw [any_map_eq, any_map_eq]
      cases hany : ds.any (fun a => sameRow (noteRow P hide line0 a).cols
          (noteRow P hide line e).cols) with
      | false => rfl
      | true =>
        exfalso
        obtain ⟨d, hd, hs⟩ := List.any_eq_true.1 hany
        rw [sameRow_noteRow] at hs
        rw [List.pairwise_append] at hp
        exact hp.2.2 d hd e (List.mem_cons_self _ _) hs
    have hstep : addNoteRows P hide line (e :: es) (ds.map (noteRow P hide line0)) =
        addNoteRows P hide
          { line with file := e.file, line := e.line, message := e.info, summary := e.info } es
          ((ds ++ [e]).map (noteRow P hide line0)) := by
      have hcols : (noteRow P hide line e).cols = rowColumns P
          { line with file := e.file, line := e.line, message := e.info, summary := e.info }
          true := rfl
      rw [hcols] at hno
      simp only [addNoteRows, addBacktraceFiles, hno, Bool.false_eq_true, if_false,
        List.map_append, List.map_cons, List.map_nil, ← hbase e]
      rfl
    rw [hstep, ih (ds ++ [e]) _ (fun e1 => (noteRow_base P hide line e e1).trans (hbase e1))
      (by simpa using hp)]
    simp

/-- The path of the finding that `saveErrors` rebuilds from the error row that
`addErrorItem` appends for a finding with at least two path steps, no two of
which have the same line and the same note text: the steps of the finding, in
order, each with the saved display name of its file. -/
theorem savedError_errorRow_path (P : Platform) (t : ResultsTree) (item : ErrorItem)
    (back : QErrorPathItem) (hn : 2 ≤ item.errorPath.length)
    (hp : item.errorPath.Pairwise (fun a b => ¬ (a.line = b.line ∧ a.info = b.info))) :
    (t.savedError P (t.errorRow P item back)).errorPath =
      item.errorPath.map (fun e => { e with file := t.stripPath P e.file true }) := by
  have hnotes : (t.errorRow P item back).children =
      item.errorPath.map (noteRow P (t.hideOnInsert P item back) (t.primaryLine P item back)) := by
    have h1 : item.errorPath.length > 1 := hn
    simp only [ResultsTree.errorRow, h1, if_true]
    exact addNoteRows_distinct P _ _ item.errorPath [] _ (fun _ => rfl) (by simpa using hp)
  have hlen : (item.errorPath.length == 0) = false := by
    cases h : item.errorPath.length with
    | zero => omega
    | succ n => rfl
  simp only [ResultsTree.savedError, hnotes, List.length_map, hlen, Bool.false_eq_true, if_false,
    List.nil_append, List.map_map]
  rfl

/-! ## Display paths -/

/-- C24: `stripPath` for browsing returns the path as it is when show-full-path
is enabled, and for saving when save-full-path is enabled; the browsing result
does not depend on save-full-path and the saving result does not depend on
show-full-path. -/
theorem stripPath_full_path (P : Platform) (t : ResultsTree) (p : String) (b : Bool) :
    (t.mShowFullPath = true → t.stripPath P p false = p) ∧
    (t.mSaveFullPath = true → t.stripPath P p true = p) ∧
    ({ t with mSaveFullPath := b } : ResultsTree).stripPath P p false = t.stripPath P p false ∧
    ({ t with mShowFullPath := b } : ResultsTree).stripPath P p true = t.stripPath P p true := by
  refine ⟨fun h => ?_, fun h => ?_, ?_, ?_⟩ <;> simp [ResultsTree.stripPath, *]

/-- Witness for C24: the sample store with both flags enabled. -/
theorem stripPath_full_path_witness :
    ({ sampleTree with mShowFullPath := true, mSaveFullPath := true } : ResultsTree).stripPath
      samplePlatform "/proj/a.c" false = "/proj/a.c" ∧
    ({ sampleTree with mShowFullPath := true, mSaveFullPath := true } : ResultsTree).stripPath
      samplePlatform "/proj/a.c" true = "/proj/a.c" :=
  ⟨(stripPath_full_path samplePlatform
      { sampleTree with mShowFullPath := true, mSaveFullPath := true } "/proj/a.c" false).1 rfl,
   (stripPath_full_path samplePlatform
      { sampleTree with mShowFullPath := true, mSaveFullPath := true } "/proj/a.c" false).2.1 rfl⟩

/-- C25 (counterexample): without a check directory and with both full-path flags
off, in a process whose current directory is `/home/user`, `stripPath` turns
`/proj/a.c` into `../../proj/a.c`. -/
theorem stripPath_no_root_changes_path :
    noRootTree.mCheckPath = "" ∧
    ¬ (noRootTree.stripPath (qtPlatform "/home/user") "/proj/a.c" false = "/proj/a.c") ∧
    noRootTree.stripPath (qtPlatform "/home/user") "/proj/a.c" false = "../../proj/a.c" := by
  decide

/-- C25 (amended): without a check directory, `stripPath` returns the path as it
is when the full-path flag of its mode is enabled, and otherwise what
`QDir("").relativeFilePath` returns for it. -/
theorem stripPath_no_root (P : Platform) (t : ResultsTree) (p : String)
    (h : t.mCheckPath = "") :
    t.stripPath P p false = (if t.mShowFullPath then p else P.relativeFilePath "" p) ∧
    t.stripPath P p true = (if t.mSaveFullPath then p else P.relativeFilePath "" p) := by
  simp [ResultsTree.stripPath, h]

/-- Witness for C25 (amended): the sample store without a check directory. -/
theorem stripPath_no_root_witness :
    noRootTree.mCheckPath = "" ∧
    noRootTree.stripPath (qtPlatform "/home/user") "src/a.c" false =
      (if noRootTree.mShowFullPath then "src/a.c"
       else (qtPlatform "/home/user").relativeFilePath "" "src/a.c") ∧
    noRootTree.stripPath (qtPlatform "/home/user") "src/a.c" true =
      (if noRootTree.mSaveFullPath then "src/a.c"
       else (qtPlatform "/home/user").relativeFilePath "" "src/a.c") :=
  ⟨rfl, stripPath_no_root (qtPlatform "/home/user") noRootTree "src/a.c" rfl⟩

/-! ## Frame of the clearing operations -/

theorem removeFirst_spec {α : Type} (p : α → Bool) :
    ∀ l : List α,
      ((∀ x ∈ l, p x = false) ∧ removeFirst p l = l) ∨
      ∃ l1 a l2, l = l1 ++ a :: l2 ∧ p a = true ∧ (∀ x ∈ l1, p x = false) ∧
        removeFirst p l = l1 ++ l2 := by
  intro l
  induction l with
  | nil => left; simp [removeFirst]
  | cons b l ih =>
    cases hb : p b with
    | true =>
      right
      exact ⟨[], b, l, rfl, hb, by simp, by simp [removeFirst, hb]⟩
    | false =>
      rcases ih with ⟨hall, hrem⟩ | ⟨l1, a, l2, hl, ha, hl1, hrem⟩
      · left
        refine ⟨?_, by simp [removeFirst, hb, hrem]⟩
        intro x hx
        rcases List.mem_cons.1 hx with rfl | hx
        · exact hb
        · exact hall x hx
      · right
        refine ⟨b :: l1, a, l2, by simp [hl], ha, ?_, by simp [removeFirst, hb, hrem]⟩
        intro x hx
        rcases List.mem_cons.1 hx with rfl | hx
        · exact hb
        · exact hl1 x hx

/-- C27: `clear(filename)` and `clearRecheckFile` each either find no file item
that passes their test and leave the state as it was, or remove the first file
item in store order that passes it and nothing else: the file items before and
after it are kept as they are, in their order. -/
theorem clear_removes_first_match (P : Platform) (t : ResultsTree) (filename : String) :
    (((∀ f ∈ t.mModel,
          (t.stripPath P filename false == f.data.file || filename == f.data.file0) = false) ∧
        t.clearFile P filename = t) ∨
      ∃ l1 a l2, t.mModel = l1 ++ a :: l2 ∧
        (t.stripPath P filename false == a.data.file || filename == a.data.file0) = true ∧
        (∀ f ∈ l1,
          (t.stripPath P filename false == f.data.file || filename == f.data.file0) = false) ∧
        t.clearFile P filename = { t with mModel := l1 ++ l2 }) ∧
    (((∀ f ∈ t.mModel, (t.cutCheckPath filename == t.cutCheckPath f.data.file) = false) ∧
        t.clearRecheckFile filename = t) ∨
      ∃ l1 a l2, t.mModel = l1 ++ a :: l2 ∧
        (t.cutCheckPath filename == t.cutCheckPath a.data.file) = true ∧
        (∀ f ∈ l1, (t.cutCheckPath filename == t.cutCheckPath f.data.file) = false) ∧
        t.clearRecheckFile filename = { t with mModel := l1 ++ l2 }) := by
  constructor
  · rcases removeFirst_spec
      (fun item : FileItem =>
        t.stripPath P filename false == item.data.file || filename == item.data.file0)
      t.mModel with ⟨hall, hrem⟩ | ⟨l1, a, l2, hl, ha, hl1, hrem⟩
    · left
      refine ⟨hall, ?_⟩
      unfold ResultsTree.clearFile
      simp only [hrem]
    · right
      refine ⟨l1, a, l2, hl, ha, hl1, ?_⟩
      unfold ResultsTree.clearFile
      simp only [hrem]
  · rcases removeFirst_spec
      (fun item : FileItem => t.cutCheckPath filename == t.cutCheckPath item.data.file)
      t.mModel with ⟨hall, hrem⟩ | ⟨l1, a, l2, hl, ha, hl1, hrem⟩
    · left
      refine ⟨hall, ?_⟩
      unfold ResultsTree.clearRecheckFile
      simp only [hrem]
    · right
      refine ⟨l1, a, l2, hl, ha, hl1, ?_⟩
      unfold ResultsTree.clearRecheckFile
      simp only [hrem]

/-- C30 (failing input): with check directory `/proj`, the only file item of the
store is the one of `/proj/cts/a.c`, and `clearRecheckFile` of the other file
`/projects/a.c` removes it. -/
theorem clearRecheckFile_removes_other_file :
    (sampleTree.addErrorItem samplePlatform nestedFinding).2.mCheckPath = "/proj" ∧
    (sampleTree.addErrorItem samplePlatform nestedFinding).2.mModel.map
      (fun file => file.data.file) = ["/proj/cts/a.c"] ∧
    ((sampleTree.addErrorItem samplePlatform nestedFinding).2.clearRecheckFile
      "/projects/a.c").mModel = [] := by
  decide

/-! ## Frame of the policy changes -/

theorem eraseHidden_refreshFile (P : Platform) (t : ResultsTree) (file : FileItem) :
    eraseHidden (t.refreshFile P file) = eraseHidden file := by
  simp [eraseHidden, ResultsTree.refreshFile, List.map_map, Function.comp_def]

theorem refreshTree_eraseHidden (P : Platform) (t : ResultsTree) :
    (t.refreshTree P).mModel.map eraseHidden = t.mModel.map eraseHidden := by
  rw [refreshTree_mModel, List.map_map]
  exact List.map_congr_left (fun file _ => eraseHidden_refreshFile P t file)

/-- C28: `showResults` and `filterResults` leave the file items and their rows
in place with every stored field and every `hide` key (the store with the hidden
flags of file items and error rows erased is the same before and after), and
leave the check directory, the path flags, the save-all mode and the other
policy as they were; `showResults` with the category `ShowNone`, or with the
value the category already has, leaves the whole state as it was. -/
theorem policy_change_frame (P : Platform) (t : ResultsTree) (type : ShowType) (shown : Bool)
    (filter : String) :
    ((t.showResults P type shown).mModel.map eraseHidden = t.mModel.map eraseHidden ∧
      (t.showResults P type shown).mFilter = t.mFilter ∧
      (t.showResults P type shown).mCheckPath = t.mCheckPath ∧
      (t.showResults P type shown).mShowFullPath = t.mShowFullPath ∧
      (t.showResults P type shown).mSaveFullPath = t.mSaveFullPath ∧
      (t.showResults P type shown).mSaveAllErrors = t.mSaveAllErrors) ∧
    ((t.filterResults P filter).mModel.map eraseHidden = t.mModel.map eraseHidden ∧
      (t.filterResults P filter).mShowSeverities = t.mShowSeverities ∧
      (t.filterResults P filter).mCheckPath = t.mCheckPath ∧
      (t.filterResults P filter).mShowFullPath = t.mShowFullPath ∧
      (t.filterResults P filter).mSaveFullPath = t.mSaveFullPath ∧
      (t.filterResults P filter).mSaveAllErrors = t.mSaveAllErrors) ∧
    t.showResults P ShowType.ShowNone shown = t ∧
    t.showResults P type (t.mShowSeverities.isShown type) = t := by
  refine ⟨?_, ?_, ?_, ?_⟩
  · unfold ResultsTree.showResults
    split
    · exact ⟨refreshTree_eraseHidden P _, rfl, rfl, rfl, rfl, rfl⟩
    · exact ⟨rfl, rfl, rfl, rfl, rfl, rfl⟩
  · exact ⟨refreshTree_eraseHidden P _, rfl, rfl, rfl, rfl, rfl⟩
  · simp [ResultsTree.showResults]
  · simp [ResultsTree.showResults]

/-! ## Insertion and the visibility pass -/

theorem hideOnInsert_eq_hideOnRefresh (P : Platform) (t u : ResultsTree) (item : ErrorItem)
    (back : QErrorPathItem) (hs : t.sameSettings u) :
    t.hideOnInsert P item back = u.hideOnRefresh P (t.errorData P item back) := by
  simp [ResultsTree.hideOnInsert, ResultsTree.hideOnRefresh, ResultsTree.errorData,
    ShowTypes.isShownSeverity, hs.2.2.2.2.1, hs.2.2.2.2.2]

theorem addErrorItem_true_row (P : Platform) (t : ResultsTree) (item : ErrorItem)
    (h : (t.addErrorItem P item).1 = true) :
    ∃ back file, item.errorPath.getLast? = some back ∧
      file ∈ (t.addErrorItem P item).2.mModel ∧
      file.children.getLast? = some (t.errorRow P item back) ∧
      (t.hideOnInsert P item back = false → file.hidden = false) := by
  cases hb : item.errorPath.getLast? with
  | none => simp [ResultsTree.addErrorItem, hb] at h
  | some back =>
    cases hf : t.findFileItem P (toNativeSeparators P (t.stripPath P back.file false)) with
    | none =>
      rw [addErrorItem_new P t item back hb hf]
      exact ⟨back,
        { text := toNativeSeparators P (t.stripPath P back.file false)
          data := { file := back.file, file0 := item.file0, hide := false }
          hidden := t.hideOnInsert P item back
          children := [t.errorRow P item back] },
        rfl, by simp, by simp, fun hh => hh⟩
    | some i =>
      obtain ⟨file, hg, _⟩ := findFileItemIn_some P _ t.mModel i hf
      rw [addErrorItem_found P t item back hb i file hf hg] at h ⊢
      by_cases hd : (file.children.any
          (fun r => sameRow r.cols (t.errorRow P item back).cols)) = true
      · rw [if_pos hd] at h
        simp at h
      · rw [if_neg hd]
        have hlt : i < t.mModel.length := (List.get?_eq_some.1 hg).1
        refine ⟨back,
          { file with
            children := file.children ++ [t.errorRow P item back]
            hidden := if !(t.hideOnInsert P item back) then false else file.hidden },
          rfl, ?_, by simp, fun hh => by simp [hh]⟩
        exact List.mem_set _ _ hlt _

/-- C29: when `addErrorItem` accepts a finding in a state whose error rows all
have the hidden flag that `refreshTree` computes for them, the new error row has
the hidden flag that `refreshTree` computes for it in the state after the
insertion, and `refreshTree` right after the insertion leaves the error rows of
every file item, hidden flags included, as they are. -/
theorem insert_agrees_with_refresh (P : Platform) (t : ResultsTree) (item : ErrorItem)
    (h : (t.addErrorItem P item).1 = true)
    (hform : ∀ file ∈ t.mModel, ∀ r ∈ file.children, r.hidden = t.hideOnRefresh P r.data) :
    (∃ back file, item.errorPath.getLast? = some back ∧
      file ∈ (t.addErrorItem P item).2.mModel ∧
      file.children.getLast? = some (t.errorRow P item back) ∧
      (t.errorRow P item back).hidden =
        (t.addErrorItem P item).2.hideOnRefresh P (t.errorRow P item back).data) ∧
    ((t.addErrorItem P item).2.refreshTree P).mModel.map (fun file => file.children) =
      (t.addErrorItem P item).2.mModel.map (fun file => file.children) := by
  obtain ⟨hs, hshape⟩ := addErrorItem_shape P t item
  have hnew : ∀ back, (t.errorRow P item back).hidden =
      (t.addErrorItem P item).2.hideOnRefresh P (t.errorRow P item back).data :=
    fun back => hideOnInsert_eq_hideOnRefresh P t _ item back hs
  have hold : ∀ data, (t.addErrorItem P item).2.hideOnRefresh P data = t.hideOnRefresh P data :=
    fun data => hideOnRefresh_congr P t _ hs.2.2.2.2.1 hs.2.2.2.2.2 data
  constructor
  · obtain ⟨back, file, hb, hfile, hlast, _⟩ := addErrorItem_true_row P t item h
    exact ⟨back, file, hb, hfile, hlast, hnew back⟩
  · have hall : ∀ file ∈ (t.addErrorItem P item).2.mModel, ∀ r ∈ file.children,
        r.hidden = (t.addErrorItem P item).2.hideOnRefresh P r.data := by
      intro file hfile r hr
      rcases hshape with hm | ⟨back, hb, ⟨hf, hm⟩ | ⟨i, file0, hf, hg, hname, hnd, hm⟩⟩
      · rw [hm] at hfile
        rw [hold]; exact hform file hfile r hr
      · rw [hm, List.mem_append, List.mem_singleton] at hfile
        rcases hfile with hfile | rfl
        · rw [hold]; exact hform file hfile r hr
        · rw [List.mem_singleton.1 hr]; exact hnew back
      · rw [hm] at hfile
        rcases List.mem_or_eq_of_mem_set hfile with hfile | rfl
        · rw [hold]; exact hform file hfile r hr
        · rcases List.mem_append.1 hr with hr | hr
          · rw [hold]; exact hform file0 (List.get?_mem hg) r hr
          · rw [List.mem_singleton.1 hr]; exact hnew back
    rw [refreshTree_mModel, List.map_map]
    apply List.map_congr_left
    intro file hfile
    show (ResultsTree.refreshFile P _ file).children = file.children
    rw [refreshFile_children]
    conv_rhs => rw [← List.map_id file.children]
    apply List.map_congr_left
    intro r hr
    have := hall file hfile r hr
    cases r
    simp only at this
    simp [this]

/-- Witness for C29: the second sample finding inserted after the first. -/
theorem insert_agrees_with_refresh_witness :
    (insertedTree.addErrorItem samplePlatform sampleFinding2).1 = true ∧
    (∀ file ∈ insertedTree.mModel, ∀ r ∈ file.children,
      r.hidden = insertedTree.hideOnRefresh samplePlatform r.data) ∧
    ((insertedTree.addErrorItem samplePlatform sampleFinding2).2.refreshTree
        samplePlatform).mModel.map (fun file => file.children) =
      (insertedTree.addErrorItem samplePlatform sampleFinding2).2.mModel.map
        (fun file => file.children) :=
  ⟨by decide, by decide,
    (insert_agrees_with_refresh samplePlatform insertedTree sampleFinding2 (by decide)
      (by decide)).2⟩

/-! ## Round trip of a finding through the store -/

theorem savedError_mem_saveErrors (P : Platform) (t : ResultsTree) (r : ErrorRowItem)
    (hr : r.hidden = false) :
    ∀ rows : List ErrorRowItem, r ∈ rows → t.savedError P r ∈ t.saveErrors P rows := by
  intro rows
  induction rows with
  | nil => intro h; simp at h
  | cons a rows ih =>
    intro h
    simp only [ResultsTree.saveErrors]
    rcases List.mem_cons.1 h with rfl | h
    · simp [hr]
    · split
      · exact ih h
      · exact List.mem_cons_of_mem _ (ih h)

theorem savedError_mem_saveResultsFrom (P : Platform) (t : ResultsTree) (file : FileItem)
    (r : ErrorRowItem) (hfh : file.hidden = false) (hr : r ∈ file.children)
    (hrh : r.hidden = false) :
    ∀ l : List FileItem, file ∈ l → t.savedError P r ∈ t.saveResultsFrom P l := by
  intro l
  induction l with
  | nil => intro hfile; simp at hfile
  | cons a l ih =>
    intro hfile
    simp only [ResultsTree.saveResultsFrom]
    rcases List.mem_cons.1 hfile with rfl | hfile
    · simp only [hfh, Bool.not_false, if_true]
      exact List.mem_append_left _ (savedError_mem_saveErrors P t r hrh _ hr)
    · split
      · exact List.mem_append_right _ (ih hfile)
      · exact ih hfile

theorem savedError_mem_saveResults (P : Platform) (t : ResultsTree) (file : FileItem)
    (r : ErrorRowItem) (hfile : file ∈ t.mModel) (hfh : file.hidden = false)
    (hr : r ∈ file.children) (hrh : r.hidden = false) :
    t.savedError P r ∈ t.saveResults P :=
  savedError_mem_saveResultsFrom P t file r hfh hr hrh t.mModel hfile

/-- C21: when `addErrorItem` accepts a finding, the error row it appends is the
last row of a file item of the store, and the finding that `saveErrors` rebuilds
from that row has the error id, summary, message and inconclusive flag of the
inserted finding and as origin file the saved display name of the inserted
origin file, computed in the state of the insertion; when the row is not hidden
at insertion, that finding is among those `saveResults` hands to the report
writer right after the insertion. -/
theorem export_primary_fields (P : Platform) (t : ResultsTree) (item : ErrorItem)
    (h : (t.addErrorItem P item).1 = true) :
    ∃ back file, item.errorPath.getLast? = some back ∧
      file ∈ (t.addErrorItem P item).2.mModel ∧
      file.children.getLast? = some (t.errorRow P item back) ∧
      (∀ u : ResultsTree,
        (u.savedError P (t.errorRow P item back)).errorId = item.errorId ∧
        (u.savedError P (t.errorRow P item back)).summary = item.summary ∧
        (u.savedError P (t.errorRow P item back)).message = item.message ∧
        (u.savedError P (t.errorRow P item back)).inconclusive = item.inconclusive ∧
        (u.savedError P (t.errorRow P item back)).file0 = t.stripPath P item.file0 true) ∧
      (t.hideOnInsert P item back = false →
        (t.addErrorItem P item).2.savedError P (t.errorRow P item back) ∈
          (t.addErrorItem P item).2.saveResults P) := by
  obtain ⟨back, file, hb, hfile, hlast, hshown⟩ := addErrorItem_true_row P t item h
  refine ⟨back, file, hb, hfile, hlast, fun u => ⟨rfl, rfl, rfl, rfl, rfl⟩, fun hh => ?_⟩
  exact savedError_mem_saveResults P _ file _ hfile (hshown hh)
    (List.mem_of_getLast?_eq_some hlast) hh

/-- Witness for C21: the sample finding inserted into the empty sample store. -/
theorem export_primary_fields_witness :
    (sampleTree.addErrorItem samplePlatform sampleFinding).1 = true ∧
    ∃ back file, sampleFinding.errorPath.getLast? = some back ∧
      file ∈ (sampleTree.addErrorItem samplePlatform sampleFinding).2.mModel ∧
      file.children.getLast? = some (sampleTree.errorRow samplePlatform sampleFinding back) ∧
      (∀ u : ResultsTree,
        (u.savedError samplePlatform
          (sampleTree.errorRow samplePlatform sampleFinding back)).errorId =
            sampleFinding.errorId ∧
        (u.savedError samplePlatform
          (sampleTree.errorRow samplePlatform sampleFinding back)).summary =
            sampleFinding.summary ∧
        (u.savedError samplePlatform
          (sampleTree.errorRow samplePlatform sampleFinding back)).message =
            sampleFinding.message ∧
        (u.savedError samplePlatform
          (sampleTree.errorRow samplePlatform sampleFinding back)).inconclusive =
            sampleFinding.inconclusive ∧
        (u.savedError samplePlatform
          (sampleTree.errorRow samplePlatform sampleFinding back)).file0 =
            sampleTree.stripPath samplePlatform sampleFinding.file0 true) ∧
      (sampleTree.hideOnInsert samplePlatform sampleFinding back = false →
        (sampleTree.addErrorItem samplePlatform sampleFinding).2.savedError samplePlatform
            (sampleTree.errorRow samplePlatform sampleFinding back) ∈
          (sampleTree.addErrorItem samplePlatform sampleFinding).2.saveResults samplePlatform) :=
  ⟨by decide, export_primary_fields samplePlatform sampleTree sampleFinding (by decide)⟩

theorem savedError_path_ne_nil (P : Platform) (u : ResultsTree) (row : ErrorRowItem) :
    (u.savedError P row).errorPath ≠ [] := by
  unfold ResultsTree.savedError
  cases hc : row.children with
  | nil => simp
  | cons n ns => simp

/-- C22: when `addErrorItem` accepts a finding whose path is the one step
`step`, the error row it appends is the last row of a file item of the store and
has no note rows, and the finding that `saveErrors` rebuilds from it has a path
of exactly one step, with the line of `step`, the saved display name of its file
and the message of the finding as note text; the path of a finding rebuilt from
any error row is never empty. -/
theorem export_single_step (P : Platform) (t : ResultsTree) (item : ErrorItem)
    (step : QErrorPathItem) (hpath : item.errorPath = [step])
    (h : (t.addErrorItem P item).1 = true) :
    (∃ file, file ∈ (t.addErrorItem P item).2.mModel ∧
      file.children.getLast? = some (t.errorRow P item step)) ∧
    (t.errorRow P item step).children = [] ∧
    (∀ u : ResultsTree, (u.savedError P (t.errorRow P item step)).errorPath =
      [{ file := u.stripPath P step.file true, line := step.line, info := item.message }]) ∧
    (∀ (u : ResultsTree) (row : ErrorRowItem), (u.savedError P row).errorPath ≠ []) := by
  obtain ⟨back, file, hb, hfile, hlast, _⟩ := addErrorItem_true_row P t item h
  have hbs : back = step := by
    rw [hpath] at hb
    simpa using hb.symm
  subst hbs
  have hch : (t.errorRow P item back).children = [] := by
    simp [ResultsTree.errorRow, hpath]
  refine ⟨⟨file, hfile, hlast⟩, hch, fun u => ?_, savedError_path_ne_nil P⟩
  simp only [ResultsTree.savedError, hch, List.length_nil, beq_self_eq_true, if_true,
    List.map_nil, List.append_nil]
  rfl

/-- Witness for C22: the second sample finding, whose path has one step. -/
theorem export_single_step_witness :
    sampleFinding2.errorPath = [⟨"/proj/a.c", 20, ""⟩] ∧
    (sampleTree.addErrorItem samplePlatform sampleFinding2).1 = true ∧
    (sampleTree.errorRow samplePlatform sampleFinding2 ⟨"/proj/a.c", 20, ""⟩).children = [] ∧
    (∀ u : ResultsTree,
      (u.savedError samplePlatform
        (sampleTree.errorRow samplePlatform sampleFinding2 ⟨"/proj/a.c", 20, ""⟩)).errorPath =
      [{ file := u.stripPath samplePlatform "/proj/a.c" true, line := 20,
         info := sampleFinding2.message }]) :=
  ⟨rfl, by decide,
    (export_single_step samplePlatform sampleTree sampleFinding2 ⟨"/proj/a.c", 20, ""⟩ rfl
      (by decide)).2.1,
    (export_single_step samplePlatform sampleTree sampleFinding2 ⟨"/proj/a.c", 20, ""⟩ rfl
      (by decide)).2.2.1⟩

/-! ## Note rows of a new error row -/

theorem addNoteRows_display (P : Platform) (hide : Bool) :
    ∀ (es : List QErrorPathItem) (line : ErrorLine) (notes : List NoteItem),
      (∀ n ∈ notes, n.cols.severity = tr "note" ∧ n.cols.id = "" ∧ n.cols.inconclusive = none) →
      ∀ n ∈ addNoteRows P hide line es notes,
        n.cols.severity = tr "note" ∧ n.cols.id = "" ∧ n.cols.inconclusive = none := by
  intro es
  induction es with
  | nil => intro line notes hq; simpa [addNoteRows] using hq
  | cons e es ih =>
    intro line notes hq
    simp only [addNoteRows, addBacktraceFiles]
    split
    · exact ih _ notes hq
    · next cols hcols =>
      apply ih
      intro n hn
      rcases List.mem_append.1 hn with hn | hn
      · exact hq n hn
      · rw [List.mem_singleton.1 hn]
        split at hcols
        · simp at hcols
        · simp only [Option.some.injEq] at hcols
          subst hcols
          simp [rowColumns]

/-- C23 (counterexample): the sample finding has two path steps, is accepted,
and its error row gets two note rows, not one. -/
theorem note_rows_include_primary_step :
    (sampleTree.addErrorItem samplePlatform sampleFinding).1 = true ∧
    sampleFinding.errorPath.length = 2 ∧
    ¬ (∀ file ∈ (sampleTree.addErrorItem samplePlatform sampleFinding).2.mModel,
        ∀ r ∈ file.children, r.children.length = sampleFinding.errorPath.length - 1) := by
  decide

/-- C23 (amended): when `addErrorItem` accepts a finding, the error row it
appends has no note row if the path has one step; if the path has at least two
steps, no two of them with the same line and the same note text, it has exactly
one note row for every step of the path, the primary step included, in path
order; and every note row shows the severity `note`, an empty error id and no
check box. -/
theorem note_rows_of_path (P : Platform) (t : ResultsTree) (item : ErrorItem)
    (h : (t.addErrorItem P item).1 = true) :
    ∃ back file, item.errorPath.getLast? = some back ∧
      file ∈ (t.addErrorItem P item).2.mModel ∧
      file.children.getLast? = some (t.errorRow P item back) ∧
      (item.errorPath.length = 1 → (t.errorRow P item back).children = []) ∧
      (2 ≤ item.errorPath.length →
        item.errorPath.Pairwise (fun a b => ¬ (a.line = b.line ∧ a.info = b.info)) →
        (t.errorRow P item back).children =
          item.errorPath.map
            (noteRow P (t.hideOnInsert P item back) (t.primaryLine P item back)) ∧
        (t.errorRow P item back).children.length = item.errorPath.length) ∧
      (∀ n ∈ (t.errorRow P item back).children,
        n.cols.severity = tr "note" ∧ n.cols.id = "" ∧ n.cols.inconclusive = none) := by
  obtain ⟨back, file, hb, hfile, hlast, _⟩ := addErrorItem_true_row P t item h
  refine ⟨back, file, hb, hfile, hlast, ?_, ?_, ?_⟩
  · intro h1
    simp [ResultsTree.errorRow, h1]
  · intro h2 hp
    have hgt : item.errorPath.length > 1 := h2
    have hch : (t.errorRow P item back).children =
        item.errorPath.map
          (noteRow P (t.hideOnInsert P item back) (t.primaryLine P item back)) := by
      simp only [ResultsTree.errorRow, hgt, if_true]
      exact addNoteRows_distinct P _ _ item.errorPath [] _ (fun _ => rfl) (by simpa using hp)
    exact ⟨hch, by rw [hch, List.length_map]⟩
  · intro n hn
    simp only [ResultsTree.errorRow] at hn
    split at hn
    · exact addNoteRows_display P _ _ _ [] (by simp) n hn
    · simp at hn

/-- Witness for C23 (amended): the sample finding, whose two path steps differ
in line and note text. -/
theorem note_rows_of_path_witness :
    (sampleTree.addErrorItem samplePlatform sampleFinding).1 = true ∧
    ∃ back file, sampleFinding.errorPath.getLast? = some back ∧
      file ∈ (sampleTree.addErrorItem samplePlatform sampleFinding).2.mModel ∧
      file.children.getLast? = some (sampleTree.errorRow samplePlatform sampleFinding back) ∧
      (sampleFinding.errorPath.length = 1 →
        (sampleTree.errorRow samplePlatform sampleFinding back).children = []) ∧
      (2 ≤ sampleFinding.errorPath.length →
        sampleFinding.errorPath.Pairwise (fun a b => ¬ (a.line = b.line ∧ a.info = b.info)) →
        (sampleTree.errorRow samplePlatform sampleFinding back).children =
          sampleFinding.errorPath.map
            (noteRow samplePlatform (sampleTree.hideOnInsert samplePlatform sampleFinding back)
              (sampleTree.primaryLine samplePlatform sampleFinding back)) ∧
        (sampleTree.errorRow samplePlatform sampleFinding back).children.length =
          sampleFinding.errorPath.length) ∧
      (∀ n ∈ (sampleTree.errorRow samplePlatform sampleFinding back).children,
        n.cols.severity = tr "note" ∧ n.cols.id = "" ∧ n.cols.inconclusive = none) :=
  ⟨by decide, note_rows_of_path samplePlatform sampleTree sampleFinding (by decide)⟩

/-! ## Rows of the category `ShowNone` -/

theorem hideOnRefresh_of_none (P : Platform) (t : ResultsTree) (data : ErrorData)
    (h : data.severity = ShowType.ShowNone) : t.hideOnRefresh P data = true := by
  simp [ResultsTree.hideOnRefresh, h, ShowTypes.isShown]

theorem hideOnInsert_of_none (P : Platform) (t : ResultsTree) (item : ErrorItem)
    (back : QErrorPathItem)
    (h : ShowTypes.SeverityToShowType item.severity = ShowType.ShowNone) :
    t.hideOnInsert P item back = true := by
  simp [ResultsTree.hideOnInsert, ShowTypes.isShownSeverity, h, ShowTypes.isShown]

theorem refreshTree_none_hidden (P : Platform) (u : ResultsTree) :
    ∀ file ∈ (u.refreshTree P).mModel, ∀ r ∈ file.children,
      r.data.severity = ShowType.ShowNone → r.hidden = true := by
  intro file hfile r hr hsev
  rw [refreshTree_mModel] at hfile
  obtain ⟨f0, _, rfl⟩ := List.mem_map.1 hfile
  rw [refreshFile_children] at hr
  obtain ⟨r0, _, rfl⟩ := List.mem_map.1 hr
  exact hideOnRefresh_of_none P u r0.data hsev

theorem severities_refreshTree (P : Platform) (u : ResultsTree) :
    (u.refreshTree P).severities = u.severities := by
  simp [ResultsTree.severities, refreshTree_mModel, List.map_map, Function.comp_def,
    refreshFile_children]

theorem map_modifyAt_eq {α β : Type} (g : α → β) (f : α → α) (hgf : ∀ x, g (f x) = g x) :
    ∀ (n : Nat) (l : List α), (modifyAt f n l).map g = l.map g := by
  intro n l
  induction l generalizing n with
  | nil => cases n <;> rfl
  | cons a l ih =>
    cases n with
    | zero => simp [modifyAt, hgf]
    | succ n => simp [modifyAt, ih]

theorem severities_setHide (t : ResultsTree) (ref : ItemRef) :
    (t.setHide ref).severities = t.severities := by
  cases ref with
  | file i =>
    unfold ResultsTree.severities ResultsTree.setHide
    apply map_modifyAt_eq
    intro f
    rfl
  | error i j =>
    unfold ResultsTree.severities ResultsTree.setHide
    apply map_modifyAt_eq
    intro f
    show List.map _ (modifyAt _ j f.children) = _
    apply map_modifyAt_eq
    intro r
    rfl
  | note i j k =>
    unfold ResultsTree.severities ResultsTree.setHide
    apply map_modifyAt_eq
    intro f
    show List.map _ (modifyAt _ j f.children) = _
    apply map_modifyAt_eq
    intro r
    rfl

theorem severities_clearHide (t : ResultsTree) :
    ({ t with mModel := t.mModel.map clearHide } : ResultsTree).severities = t.severities := by
  simp [ResultsTree.severities, clearHide, List.map_map, Function.comp_def]

theorem severities_hideId (t : ResultsTree) (x : String) :
    ({ t with mModel := t.mModel.map (hideId x) } : ResultsTree).severities = t.severities := by
  simp only [ResultsTree.severities, hideId, List.map_map, Function.comp_def]
  apply List.map_congr_left
  intro file _
  apply List.map_congr_left
  intro r _
  split <;> rfl

theorem hideResult_steps (P : Platform) :
    ∀ (l : List ItemRef) (t : ResultsTree),
      (l.foldl (fun t index => (t.setHide index).refreshTree P) t).severities = t.severities ∧
      (l.foldl (fun t index => (t.setHide index).refreshTree P) t = t ∨
        ∃ u : ResultsTree,
          l.foldl (fun t index => (t.setHide index).refreshTree P) t = u.refreshTree P) := by
  intro l
  induction l with
  | nil => intro t; exact ⟨rfl, Or.inl rfl⟩
  | cons a l ih =>
    intro t
    obtain ⟨h1, h2⟩ := ih ((t.setHide a).refreshTree P)
    simp only [List.foldl_cons]
    refine ⟨by rw [h1, severities_refreshTree, severities_setHide], ?_⟩
    rcases h2 with h2 | ⟨u, hu⟩
    · exact Or.inr ⟨_, h2⟩
    · exact Or.inr ⟨u, hu⟩

/-- An operation that inserts nothing leaves the state as it was or ends with
`refreshTree`, and keeps the stored severity categories. -/
theorem applyView_cases (P : Platform) (t : ResultsTree) (op : ViewOp)
    (hop : ∀ finding, op ≠ ViewOp.insert finding) :
    (t.applyView P op).severities = t.severities ∧
    (t.applyView P op = t ∨ ∃ u : ResultsTree, t.applyView P op = u.refreshTree P) := by
  cases op with
  | insert finding => exact absurd rfl (hop finding)
  | showResults type shown =>
    simp only [ResultsTree.applyView, ResultsTree.showResults]
    split
    · exact ⟨severities_refreshTree P _, Or.inr ⟨_, rfl⟩⟩
    · exact ⟨rfl, Or.inl rfl⟩
  | filterResults filter =>
    exact ⟨severities_refreshTree P _, Or.inr ⟨_, rfl⟩⟩
  | hideResult sel =>
    cases sel with
    | none => exact ⟨rfl, Or.inl rfl⟩
    | some l => exact hideResult_steps P l t
  | hideAllIdResult ctx =>
    simp only [ResultsTree.applyView, ResultsTree.hideAllIdResult]
    cases hc : ctx.bind t.contextId with
    | none => exact ⟨rfl, Or.inl rfl⟩
    | some x => exact ⟨by rw [severities_refreshTree, severities_hideId], Or.inr ⟨_, rfl⟩⟩
  | showHiddenResults =>
    exact ⟨by
      simp only [ResultsTree.applyView, ResultsTree.showHiddenResults]
      rw [severities_refreshTree, severities_clearHide], Or.inr ⟨_, rfl⟩⟩

theorem allNone_iff (t : ResultsTree) :
    (∀ file ∈ t.mModel, ∀ r ∈ file.children, r.data.severity = ShowType.ShowNone) ↔
      ∀ l ∈ t.severities, ∀ s ∈ l, s = ShowType.ShowNone := by
  simp only [ResultsTree.severities, List.mem_map]
  constructor
  · rintro h l ⟨file, hfile, rfl⟩ s hs
    obtain ⟨r, hr, rfl⟩ := List.mem_map.1 hs
    exact h file hfile r hr
  · intro h file hfile r hr
    exact h _ ⟨file, hfile, rfl⟩ _ (List.mem_map.2 ⟨r, hr, rfl⟩)

theorem refreshTree_allNone_flag (P : Platform) (u : ResultsTree)
    (h : ∀ file ∈ u.mModel, ∀ r ∈ file.children, r.data.severity = ShowType.ShowNone) :
    (u.refreshTree P).mVisibleErrors = false := by
  simp only [ResultsTree.refreshTree]
  rw [Bool.eq_false_iff]
  intro hany
  obtain ⟨file, hfile, hf⟩ := List.any_eq_true.1 hany
  obtain ⟨r, hr, hrr⟩ := List.any_eq_true.1 hf
  simp [hideOnRefresh_of_none P u r.data (h file hfile r hr)] at hrr

theorem addErrorItem_none_flag (P : Platform) (t : ResultsTree) (item : ErrorItem)
    (h : ShowTypes.SeverityToShowType item.severity = ShowType.ShowNone) :
    (t.addErrorItem P item).2.mVisibleErrors = t.mVisibleErrors := by
  cases hb : item.errorPath.getLast? with
  | none => simp [ResultsTree.addErrorItem, hb]
  | some back =>
    have hh := hideOnInsert_of_none P t item back h
    cases hf : t.findFileItem P (toNativeSeparators P (t.stripPath P back.file false)) with
    | none =>
      rw [addErrorItem_new P t item back hb hf, hh]
      rfl
    | some i =>
      obtain ⟨file, hg, _⟩ := findFileItemIn_some P _ t.mModel i hf
      rw [addErrorItem_found P t item back hb i file hf hg, hh]
      split <;> rfl

theorem addErrorItem_none_hidden (P : Platform) (t : ResultsTree) (item : ErrorItem)
    (h : ∀ file ∈ t.mModel, ∀ r ∈ file.children,
      r.data.severity = ShowType.ShowNone → r.hidden = true) :
    ∀ file ∈ (t.addErrorItem P item).2.mModel, ∀ r ∈ file.children,
      r.data.severity = ShowType.ShowNone → r.hidden = true := by
  have hnew : ∀ back, (t.errorRow P item back).data.severity = ShowType.ShowNone →
      (t.errorRow P item back).hidden = true :=
    fun back hsev => hideOnInsert_of_none P t item back hsev
  intro file hfile r hr
  rcases (addErrorItem_shape P t item).2 with
    hm | ⟨back, hb, ⟨hf, hm⟩ | ⟨i, file0, hf, hg, hname, hnd, hm⟩⟩
  · rw [hm] at hfile; exact h file hfile r hr
  · rw [hm, List.mem_append, List.mem_singleton] at hfile
    rcases hfile with hfile | rfl
    · exact h file hfile r hr
    · rw [List.mem_singleton.1 hr]; exact hnew back
  · rw [hm] at hfile
    rcases List.mem_or_eq_of_mem_set hfile with hfile | rfl
    · exact h file hfile r hr
    · rcases List.mem_append.1 hr with hr | hr
      · exact h file0 (List.get?_mem hg) r hr
      · rw [List.mem_singleton.1 hr]; exact hnew back

theorem addErrorItem_allNone (P : Platform) (t : ResultsTree) (item : ErrorItem)
    (hsev : ShowTypes.SeverityToShowType item.severity = ShowType.ShowNone)
    (h : ∀ file ∈ t.mModel, ∀ r ∈ file.children, r.data.severity = ShowType.ShowNone) :
    ∀ file ∈ (t.addErrorItem P item).2.mModel, ∀ r ∈ file.children,
      r.data.severity = ShowType.ShowNone := by
  intro file hfile r hr
  rcases (addErrorItem_shape P t item).2 with
    hm | ⟨back, hb, ⟨hf, hm⟩ | ⟨i, file0, hf, hg, hname, hnd, hm⟩⟩
  · rw [hm] at hfile; exact h file hfile r hr
  · rw [hm, List.mem_append, List.mem_singleton] at hfile
    rcases hfile with hfile | rfl
    · exact h file hfile r hr
    · rw [List.mem_singleton.1 hr]; exact hsev
  · rw [hm] at hfile
    rcases List.mem_or_eq_of_mem_set hfile with hfile | rfl
    · exact h file hfile r hr
    · rcases List.mem_append.1 hr with hr | hr
      · exact h file0 (List.get?_mem hg) r hr
      · rw [List.mem_singleton.1 hr]; exact hsev

theorem applyView_none_hidden (P : Platform) (t : ResultsTree) (op : ViewOp)
    (h : ∀ file ∈ t.mModel, ∀ r ∈ file.children,
      r.data.severity = ShowType.ShowNone → r.hidden = true) :
    ∀ file ∈ (t.applyView P op).mModel, ∀ r ∈ file.children,
      r.data.severity = ShowType.ShowNone → r.hidden = true := by
  by_cases hop : ∃ finding, op = ViewOp.insert finding
  · obtain ⟨finding, rfl⟩ := hop
    exact addErrorItem_none_hidden P t finding h
  · rcases (applyView_cases P t op (fun f hf => hop ⟨f, hf⟩)).2 with heq | ⟨u, hu⟩
    · rw [heq]; exact h
    · rw [hu]; exact refreshTree_none_hidden P u

theorem applyView_allNone (P : Platform) (t : ResultsTree) (op : ViewOp)
    (hop : op.insertsOnlyNone = true)
    (h : (∀ file ∈ t.mModel, ∀ r ∈ file.children, r.data.severity = ShowType.ShowNone) ∧
      t.mVisibleErrors = false) :
    (∀ file ∈ (t.applyView P op).mModel, ∀ r ∈ file.children,
      r.data.severity = ShowType.ShowNone) ∧
    (t.applyView P op).mVisibleErrors = false := by
  by_cases hins : ∃ finding, op = ViewOp.insert finding
  · obtain ⟨finding, rfl⟩ := hins
    have hsev : ShowTypes.SeverityToShowType finding.severity = ShowType.ShowNone := by
      simpa [ViewOp.insertsOnlyNone] using hop
    exact ⟨addErrorItem_allNone P t finding hsev h.1,
      (addErrorItem_none_flag P t finding hsev).trans h.2⟩
  · obtain ⟨hsame, hcase⟩ := applyView_cases P t op (fun f hf => hins ⟨f, hf⟩)
    have hall : ∀ file ∈ (t.applyView P op).mModel, ∀ r ∈ file.children,
        r.data.severity = ShowType.ShowNone := by
      rw [allNone_iff, hsame, ← allNone_iff]; exact h.1
    refine ⟨hall, ?_⟩
    rcases hcase with heq | ⟨u, hu⟩
    · rw [heq]; exact h.2
    · rw [hu] at hall ⊢
      apply refreshTree_allNone_flag
      rw [allNone_iff, ← severities_refreshTree P u, ← allNone_iff]
      exact hall

/-- C26: after any sequence of insertions, `showResults`, `filterResults`,
`hideResult`, `hideAllIdResult` and `showHiddenResults` calls on a state with an
empty store, every error row whose severity category is `ShowNone` (the category
of the severity none) is hidden; when the sequence inserts only findings of that
category and `hasVisibleResults` was false at the start, it is false at the end;
and in any state the insertion of such a finding leaves `hasVisibleResults` as it
was. -/
theorem none_never_shown (P : Platform) (t : ResultsTree) (ops : List ViewOp)
    (h0 : t.mModel = []) :
    (∀ file ∈ (t.runView P ops).mModel, ∀ r ∈ file.children,
      r.data.severity = ShowType.ShowNone → r.hidden = true) ∧
    (t.mVisibleErrors = false → (∀ op ∈ ops, op.insertsOnlyNone = true) →
      (t.runView P ops).hasVisibleResults = false) ∧
    (∀ (u : ResultsTree) (item : ErrorItem),
      ShowTypes.SeverityToShowType item.severity = ShowType.ShowNone →
      (u.addErrorItem P item).2.hasVisibleResults = u.hasVisibleResults) := by
  refine ⟨?_, ?_, fun u item hsev => addErrorItem_none_flag P u item hsev⟩
  · have hA : ∀ (ops : List ViewOp) (t : ResultsTree),
        (∀ file ∈ t.mModel, ∀ r ∈ file.children,
          r.data.severity = ShowType.ShowNone → r.hidden = true) →
        ∀ file ∈ (t.runView P ops).mModel, ∀ r ∈ file.children,
          r.data.severity = ShowType.ShowNone → r.hidden = true := by
      intro ops
      induction ops with
      | nil => intro t h; exact h
      | cons op ops ih => intro t h; exact ih _ (applyView_none_hidden P t op h)
    exact hA ops t (by simp [h0])
  · intro hflag hops
    have hB : ∀ (ops : List ViewOp) (t : ResultsTree),
        (∀ op ∈ ops, op.insertsOnlyNone = true) →
        ((∀ file ∈ t.mModel, ∀ r ∈ file.children, r.data.severity = ShowType.ShowNone) ∧
          t.mVisibleErrors = false) →
        (t.runView P ops).mVisibleErrors = false := by
      intro ops
      induction ops with
      | nil => intro t _ h; exact h.2
      | cons op ops ih =>
        intro t hops h
        exact ih _ (fun o ho => hops o (List.mem_cons_of_mem _ ho))
          (applyView_allNone P t op (hops op (List.mem_cons_self _ _)) h)
    exact hB ops t hops ⟨by simp [h0], hflag⟩

/-- Witness for C26: the sample operations on the empty sample store; the row of
the finding of severity none is the first row of the file item. -/
theorem none_never_shown_witness :
    sampleTree.mModel = [] ∧
    ((sampleTree.runView samplePlatform sampleViewOps).mModel.map
      (fun file => file.children.map (fun r => (r.data.severity, r.hidden)))) =
      [[(ShowType.ShowNone, true), (ShowType.ShowErrors, false)]] ∧
    (∀ file ∈ (sampleTree.runView samplePlatform sampleViewOps).mModel, ∀ r ∈ file.children,
      r.data.severity = ShowType.ShowNone → r.hidden = true) ∧
    (sampleTree.runView samplePlatform noneViewOps).hasVisibleResults = false :=
  ⟨rfl, by decide, (none_never_shown samplePlatform sampleTree sampleViewOps rfl).1,
    (none_never_shown samplePlatform sampleTree noneViewOps rfl).2.1 rfl (by decide)⟩

end Cppcheck
